import Mathlib

/-!
Verification development for the gencolormap palette engine
(src/colormap.cpp, src/colormap.hpp).

The engine's floating-point computations are embedded over the rationals
with exact (real-number) semantics.  Transcendental library functions
(std::sin, std::cos, std::sqrt, std::pow, std::cbrt, std::exp,
std::atan2, std::acos, std::cosh, std::acosh, std::asin) and the
constant M_PI have no rational realisation; they are supplied as an
explicit parameter (a MathOracle), so every definition below is a
function of the oracle and mirrors the corresponding source function
line by line.  Structural properties are proved for every oracle;
properties that depend on analytic facts about the library functions
take those facts as explicit hypotheses on the oracle.

C++ details that are modelled exactly:
 * std::round rounds half away from zero (cround below);
 * std::fmod is x - trunc(x/y)*y (cfmod below);
 * int division / modulus on non-negative ints is Nat division/modulus;
 * unsigned char output buffers are functions from byte offsets to
   naturals, written through explicit single-byte updates.
-/

namespace ColorMap

/-- Truncation of a rational toward zero, as C casts/std::trunc do. -/
def ratTrunc (q : ℚ) : ℤ := q.num / (q.den : ℤ)

/-- std::round: round half away from zero. -/
def cround (q : ℚ) : ℤ := if q < 0 then -⌊-q + 1/2⌋ else ⌊q + 1/2⌋

/-- std::fmod with C semantics: x - trunc(x/y) * y (junk value 0·... at y = 0,
matching the total division of ℚ). -/
def cfmod (x y : ℚ) : ℚ := x - (ratTrunc (x / y) : ℚ) * y

/-- Source helper sqr (colormap.cpp line 51). -/
def sqr (x : ℚ) : ℚ := x * x

/-- Source helper clamp (colormap.cpp line 56): min (max x lo) hi. -/
def clamp (x lo hi : ℚ) : ℚ := min (max x lo) hi

/-- The color triplet class (colormap.cpp line 92): three floats whose
interpretation depends on the producing function.  The C++ union member
names (l,u,v / l,c,h / l,a,b / m,s,h / r,g,b) are provided as accessor
functions below. -/
structure triplet where
  x : ℚ
  y : ℚ
  z : ℚ
deriving DecidableEq

def triplet.l (t : triplet) : ℚ := t.x
def triplet.a (t : triplet) : ℚ := t.y
def triplet.u (t : triplet) : ℚ := t.y
def triplet.c (t : triplet) : ℚ := t.y
def triplet.s (t : triplet) : ℚ := t.y
def triplet.v (t : triplet) : ℚ := t.z
def triplet.b (t : triplet) : ℚ := t.z
def triplet.h (t : triplet) : ℚ := t.z
def triplet.m (t : triplet) : ℚ := t.x
def triplet.r (t : triplet) : ℚ := t.x
def triplet.g (t : triplet) : ℚ := t.y

/-- operator+ on triplets (colormap.cpp line 106). -/
instance : Add triplet := ⟨fun t0 t1 => ⟨t0.x + t1.x, t0.y + t1.y, t0.z + t1.z⟩⟩

/-- operator* (scalar times triplet, colormap.cpp line 111). -/
instance : HMul ℚ triplet triplet := ⟨fun s t => ⟨s * t.x, s * t.y, s * t.z⟩⟩

@[simp] theorem triplet.add_x (t0 t1 : triplet) : (t0 + t1).x = t0.x + t1.x := rfl
@[simp] theorem triplet.add_y (t0 t1 : triplet) : (t0 + t1).y = t0.y + t1.y := rfl
@[simp] theorem triplet.add_z (t0 t1 : triplet) : (t0 + t1).z = t0.z + t1.z := rfl
@[simp] theorem triplet.smul_x (s : ℚ) (t : triplet) : (s * t).x = s * t.x := rfl
@[simp] theorem triplet.smul_y (s : ℚ) (t : triplet) : (s * t).y = s * t.y := rfl
@[simp] theorem triplet.smul_z (s : ℚ) (t : triplet) : (s * t).z = s * t.z := rfl

/-- Two triplets with equal components are equal. -/
theorem triplet.eq_of_components (a b : triplet)
    (hx : a.x = b.x) (hy : a.y = b.y) (hz : a.z = b.z) : a = b := by
  cases a; cases b; cases hx; cases hy; cases hz; rfl

/-- The transcendental library functions and M_PI, abstracted.  Every
engine function below takes the oracle as a parameter; theorems either
hold for all oracles (structural facts) or state their analytic
assumptions on the oracle explicitly. -/
structure MathOracle where
  sinO : ℚ → ℚ
  cosO : ℚ → ℚ
  sqrtO : ℚ → ℚ
  powO : ℚ → ℚ → ℚ
  cbrtO : ℚ → ℚ
  expO : ℚ → ℚ
  atan2O : ℚ → ℚ → ℚ
  acosO : ℚ → ℚ
  asinO : ℚ → ℚ
  coshO : ℚ → ℚ
  acoshO : ℚ → ℚ
  piO : ℚ

/-- twopi = 2 * M_PI (colormap.cpp line 49). -/
def twopi (O : MathOracle) : ℚ := 2 * O.piO

/-- hue_diff (colormap.cpp line 61). -/
def hue_diff (O : MathOracle) (h0 h1 : ℚ) : ℚ :=
  let t := |h1 - h0|
  if t < O.piO then t else twopi O - t

/-- uchar_to_float (colormap.cpp line 67). -/
def uchar_to_float (x : ℕ) : ℚ := (x : ℚ) / 255

/-- float_to_uchar (colormap.cpp line 72): returns the output byte and
whether the value was clipped.  The byte is clipped exactly when
round(x*255) falls outside [0,255]. -/
def float_to_uchar (x : ℚ) : ℕ × Bool :=
  let v := cround (x * 255)
  if v < 0 then (0, true)
  else if 255 < v then (255, true)
  else (v.toNat, false)

/- XYZ and related color spaces: helper functions and values. -/

/-- u_prime (colormap.cpp line 118). -/
def u_prime (xyz : triplet) : ℚ := 4 * xyz.x / (xyz.x + 15 * xyz.y + 3 * xyz.z)

/-- v_prime (colormap.cpp line 123). -/
def v_prime (xyz : triplet) : ℚ := 9 * xyz.y / (xyz.x + 15 * xyz.y + 3 * xyz.z)

def d65_xyz : triplet := ⟨95.047, 100.000, 108.883⟩
def d65_u_prime : ℚ := u_prime d65_xyz
def d65_v_prime : ℚ := v_prime d65_xyz

/-- adjust_y (colormap.cpp line 132): keep chromaticity, set luminance. -/
def adjust_y (xyz : triplet) (new_y : ℚ) : triplet :=
  let sum := xyz.x + xyz.y + xyz.z
  let x := xyz.x / sum
  let y := xyz.y / sum
  let r := new_y / y
  ⟨r * x, new_y, r * (1 - x - y)⟩

/- Color space conversion: LCH <-> LUV. -/

/-- lch_to_luv (colormap.cpp line 145). -/
def lch_to_luv (O : MathOracle) (lch : triplet) : triplet :=
  ⟨lch.l, lch.c * O.cosO lch.h, lch.c * O.sinO lch.h⟩

/-- luv_to_lch (colormap.cpp line 150); std::hypot is sqrt of the sum of
squares. -/
def luv_to_lch (O : MathOracle) (luv : triplet) : triplet :=
  let lch : triplet := ⟨luv.l, O.sqrtO (luv.u * luv.u + luv.v * luv.v), O.atan2O luv.v luv.u⟩
  if lch.h < 0 then ⟨lch.l, lch.c, lch.h + twopi O⟩ else lch

/-- lch_saturation (colormap.cpp line 158). -/
def lch_saturation (l c : ℚ) : ℚ := c / max l (1e-8)

/-- lch_chroma (colormap.cpp line 163). -/
def lch_chroma (l s : ℚ) : ℚ := s * l

/-- lch_distance (colormap.cpp line 168): Euclidean LUV distance computed
from LCH coordinates by the law of cosines. -/
def lch_distance (O : MathOracle) (lch0 lch1 : triplet) : ℚ :=
  O.sqrtO (sqr (lch0.l - lch1.l) + sqr lch0.c + sqr lch1.c
      - 2 * lch0.c * lch1.c * O.cosO (lch0.h - lch1.h))

/- Color space conversion: LUV <-> XYZ. -/

/-- luv_to_xyz (colormap.cpp line 179).  The divisions by 13*L and by
4*v_prime follow the source with no guard; over ℚ a zero divisor yields
the junk value 0 (the checked variant luv_to_xyzChecked records
definedness). -/
def luv_to_xyz (luv : triplet) : triplet :=
  let up := luv.u / (13 * luv.l) + d65_u_prime
  let vp := luv.v / (13 * luv.l) + d65_v_prime
  let y : ℚ :=
    if luv.l ≤ 8 then d65_xyz.y * luv.l * (3 * 3 * 3 / (29 * 29 * 29))
    else
      let tmp := (luv.l + 16) / 116
      d65_xyz.y * tmp * tmp * tmp
  ⟨y * (9 * up) / (4 * vp), y, y * (12 - 3 * up - 20 * vp) / (4 * vp)⟩

/-- Division with an explicit definedness check, used to record where the
source would divide by zero. -/
def qdiv? (a b : ℚ) : Option ℚ := if b = 0 then none else some (a / b)

/-- luv_to_xyz with every division of the source checked for a zero
divisor: divisions by 13*L (twice) and by 4*v_prime (twice). -/
def luv_to_xyzChecked (luv : triplet) : Option triplet :=
  (qdiv? luv.u (13 * luv.l)).bind fun u0 =>
  (qdiv? luv.v (13 * luv.l)).bind fun v0 =>
  let up := u0 + d65_u_prime
  let vp := v0 + d65_v_prime
  let y : ℚ :=
    if luv.l ≤ 8 then d65_xyz.y * luv.l * (3 * 3 * 3 / (29 * 29 * 29))
    else
      let tmp := (luv.l + 16) / 116
      d65_xyz.y * tmp * tmp * tmp
  (qdiv? (y * (9 * up)) (4 * vp)).bind fun xv =>
  (qdiv? (y * (12 - 3 * up - 20 * vp)) (4 * vp)).bind fun zv =>
  some ⟨xv, y, zv⟩

/-- xyz_to_luv (colormap.cpp line 195). -/
def xyz_to_luv (O : MathOracle) (xyz : triplet) : triplet :=
  let y_ratio := xyz.y / d65_xyz.y
  let l : ℚ :=
    if y_ratio ≤ 6 * 6 * 6 / (29 * 29 * 29) then 29 * 29 * 29 / (3 * 3 * 3) * y_ratio
    else 116 * O.cbrtO y_ratio - 16
  ⟨l, 13 * l * (u_prime xyz - d65_u_prime), 13 * l * (v_prime xyz - d65_v_prime)⟩

/-- luv_saturation (colormap.cpp line 209). -/
def luv_saturation (O : MathOracle) (luv : triplet) : ℚ :=
  lch_saturation luv.l (O.sqrtO (luv.u * luv.u + luv.v * luv.v))

/- Color space conversion: LAB <-> XYZ. -/

/-- lab_invf (colormap.cpp line 216). -/
def lab_invf (t : ℚ) : ℚ :=
  if 6 / 29 < t then t * t * t else 3 * 6 * 6 / (29 * 29) * (t - 4 / 29)

/-- lab_to_xyz (colormap.cpp line 224). -/
def lab_to_xyz (lab : triplet) : triplet :=
  let t := (lab.l + 16) / 116
  ⟨d65_xyz.x * lab_invf (t + lab.a / 500),
   d65_xyz.y * lab_invf t,
   d65_xyz.z * lab_invf (t - lab.b / 200)⟩

/-- lab_f (colormap.cpp line 232). -/
def lab_f (O : MathOracle) (t : ℚ) : ℚ :=
  if 6 * 6 * 6 / (29 * 29 * 29) < t then O.cbrtO t
  else 29 * 29 / (3 * 6 * 6) * t + 4 / 29

/-- xyz_to_lab (colormap.cpp line 240). -/
def xyz_to_lab (O : MathOracle) (xyz : triplet) : triplet :=
  let fxyz : triplet :=
    ⟨lab_f O (xyz.x / d65_xyz.x), lab_f O (xyz.y / d65_xyz.y), lab_f O (xyz.z / d65_xyz.z)⟩
  ⟨116 * fxyz.y - 16, 500 * (fxyz.x - fxyz.y), 200 * (fxyz.y - fxyz.z)⟩

/- Color space conversion: RGB <-> XYZ. -/

/-- rgb_to_xyz (colormap.cpp line 248). -/
def rgb_to_xyz (rgb : triplet) : triplet :=
  (100 : ℚ) * (⟨0.412391 * rgb.r + 0.357584 * rgb.g + 0.180481 * rgb.b,
                0.212639 * rgb.r + 0.715169 * rgb.g + 0.072192 * rgb.b,
                0.019331 * rgb.r + 0.119195 * rgb.g + 0.950532 * rgb.b⟩ : triplet)

/-- xyz_to_rgb (colormap.cpp line 257). -/
def xyz_to_rgb (xyz : triplet) : triplet :=
  (0.01 : ℚ) * (⟨3.240970 * xyz.x - 1.537383 * xyz.y - 0.498611 * xyz.z,
                 -0.969244 * xyz.x + 1.875968 * xyz.y + 0.041555 * xyz.z,
                 0.055630 * xyz.x - 0.203977 * xyz.y + 1.056972 * xyz.z⟩ : triplet)

/- Color space conversion: RGB <-> sRGB. -/

/-- rgb_to_srgb_helper (colormap.cpp line 268): the sRGB gamma encoding. -/
def rgb_to_srgb_helper (O : MathOracle) (x : ℚ) : ℚ :=
  if x ≤ 0.0031308 then x * 12.92 else 1.055 * O.powO x (1 / 2.4) - 0.055

/-- rgb_to_srgb (colormap.cpp line 273). -/
def rgb_to_srgb (O : MathOracle) (rgb : triplet) : triplet :=
  ⟨rgb_to_srgb_helper O rgb.r, rgb_to_srgb_helper O rgb.g, rgb_to_srgb_helper O rgb.b⟩

/-- srgb_to_rgb_helper (colormap.cpp line 278): the sRGB gamma decoding. -/
def srgb_to_rgb_helper (O : MathOracle) (x : ℚ) : ℚ :=
  if x ≤ 0.04045 then x / 12.92 else O.powO ((x + 0.055) / 1.055) 2.4

/-- srgb_to_rgb (colormap.cpp line 283). -/
def srgb_to_rgb (O : MathOracle) (srgb : triplet) : triplet :=
  ⟨srgb_to_rgb_helper O srgb.r, srgb_to_rgb_helper O srgb.g, srgb_to_rgb_helper O srgb.b⟩

/- Helpers for the conversion to colormap entries. -/

/-- The quantisation tail of xyz_to_colormap (colormap.cpp lines 292-297):
three float_to_uchar calls and the OR of the three clip flags. -/
def srgb_quantize (srgb : triplet) : (ℕ × ℕ × ℕ) × Bool :=
  let r := float_to_uchar srgb.r
  let g := float_to_uchar srgb.g
  let b := float_to_uchar srgb.b
  ((r.1, g.1, b.1), r.2 || g.2 || b.2)

/-- xyz_to_colormap (colormap.cpp line 290): convert to sRGB and quantize;
returns the three bytes and whether any channel was clipped. -/
def xyz_to_colormap (O : MathOracle) (xyz : triplet) : (ℕ × ℕ × ℕ) × Bool :=
  srgb_quantize (rgb_to_srgb O (xyz_to_rgb xyz))

/-- luv_to_colormap (colormap.cpp line 300). -/
def luv_to_colormap (O : MathOracle) (luv : triplet) : (ℕ × ℕ × ℕ) × Bool :=
  xyz_to_colormap O (luv_to_xyz luv)

/-- lch_to_colormap (colormap.cpp line 305). -/
def lch_to_colormap (O : MathOracle) (lch : triplet) : (ℕ × ℕ × ℕ) × Bool :=
  luv_to_colormap O (lch_to_luv O lch)

/-- lab_to_colormap (colormap.cpp line 310). -/
def lab_to_colormap (O : MathOracle) (lab : triplet) : (ℕ × ℕ × ℕ) × Bool :=
  xyz_to_colormap O (lab_to_xyz lab)

/- Various helpers. -/

/-- srgb_to_lch_hue (colormap.cpp line 317). -/
def srgb_to_lch_hue (O : MathOracle) (srgb : triplet) : ℚ :=
  (luv_to_lch O (xyz_to_luv O (rgb_to_xyz (srgb_to_rgb O srgb)))).h

/-- The six sRGB cube corner hues h[0..5] computed once in
most_saturated_in_srgb (colormap.cpp lines 328-335): R, Y, G, C, B, M. -/
def corner_hues (O : MathOracle) : Fin 6 → ℚ
  | 0 => srgb_to_lch_hue O ⟨1, 0, 0⟩
  | 1 => srgb_to_lch_hue O ⟨1, 1, 0⟩
  | 2 => srgb_to_lch_hue O ⟨0, 1, 0⟩
  | 3 => srgb_to_lch_hue O ⟨0, 1, 1⟩
  | 4 => srgb_to_lch_hue O ⟨0, 0, 1⟩
  | 5 => srgb_to_lch_hue O ⟨1, 0, 1⟩

/-- The sector selection of most_saturated_in_srgb (colormap.cpp lines
339-367): the component indices (i, j, k). -/
def mss_sector (O : MathOracle) (lch_hue : ℚ) : Fin 3 × Fin 3 × Fin 3 :=
  let h := corner_hues O
  if lch_hue < h 0 then (2, 1, 0)
  else if lch_hue < h 1 then (1, 2, 0)
  else if lch_hue < h 2 then (0, 2, 1)
  else if lch_hue < h 3 then (2, 0, 1)
  else if lch_hue < h 4 then (1, 0, 2)
  else if lch_hue < h 5 then (0, 1, 2)
  else (2, 1, 0)

/-- The fixed matrix M of most_saturated_in_srgb (colormap.cpp lines
371-375), indexed row/column. -/
def mssM : Fin 3 → Fin 3 → ℚ
  | 0, 0 => 0.4124 | 0, 1 => 0.3576 | 0, 2 => 0.1805
  | 1, 0 => 0.2126 | 1, 1 => 0.7152 | 1, 2 => 0.0722
  | 2, 0 => 0.0193 | 2, 1 => 0.1192 | 2, 2 => 0.9505

/-- Store into one cell of the local float srgb[3] array. -/
def fin3upd (f : Fin 3 → ℚ) (a : Fin 3) (v : ℚ) : Fin 3 → ℚ :=
  fun idx => if idx = a then v else f idx

/-- The sRGB triple built inside most_saturated_in_srgb (colormap.cpp
lines 370-383): srgb[j] = 0, srgb[k] = 1, and srgb[i] is the
gamma-encoded, clamped solution of the linear equation. -/
def mss_srgbFun (O : MathOracle) (lch_hue : ℚ) : Fin 3 → ℚ :=
  let s := mss_sector O lch_hue
  let i := s.1; let j := s.2.1; let k := s.2.2
  let alpha := -(O.sinO lch_hue)
  let beta := O.cosO lch_hue
  let T := alpha * d65_u_prime + beta * d65_v_prime
  let q0 := T * (mssM 0 k + 15 * mssM 1 k + 3 * mssM 2 k)
            - (4 * alpha * mssM 0 k + 9 * beta * mssM 1 k)
  let q1 := T * (mssM 0 i + 15 * mssM 1 i + 3 * mssM 2 i)
            - (4 * alpha * mssM 0 i + 9 * beta * mssM 1 i)
  fin3upd (fin3upd (fin3upd (fun _ => 0) j 0) k 1)
    i (rgb_to_srgb_helper O (clamp (-q0 / q1) 0 1))

/-- most_saturated_in_srgb (colormap.cpp line 325): convert the surface
sRGB triple back to LUV. -/
def most_saturated_in_srgb (O : MathOracle) (lch_hue : ℚ) : triplet :=
  let srgb := mss_srgbFun O lch_hue
  xyz_to_luv O (rgb_to_xyz (srgb_to_rgb O ⟨srgb 0, srgb 1, srgb 2⟩))

/-- s_max (colormap.cpp line 389). -/
def s_max (O : MathOracle) (l h : ℚ) : ℚ :=
  let pmid := most_saturated_in_srgb O h
  let pend : triplet := if pmid.l < l then ⟨100, 0, 0⟩ else ⟨0, 0, 0⟩
  let alpha := (pend.l - l) / (pend.l - pmid.l)
  let pmids := luv_saturation O pmid
  let pends := luv_saturation O pend
  alpha * (pmids - pends) + pends

/-- get_bright_point (colormap.cpp line 401): the LUV of pure yellow
(the memoisation is modelled by this being a plain definition). -/
def get_bright_point (O : MathOracle) : triplet :=
  xyz_to_luv O (rgb_to_xyz ⟨1, 1, 0⟩)

/-- mix_hue (colormap.cpp line 410). -/
def mix_hue (O : MathOracle) (alpha h0 h1 : ℚ) : ℚ :=
  let M := cfmod (O.piO + h1 - h0) (twopi O) - O.piO
  cfmod (h0 + alpha * M) (twopi O)

/-- The six output points of get_color_points. -/
structure ColorPoints where
  p0 : triplet
  p1 : triplet
  p2 : triplet
  q0 : triplet
  q1 : triplet
  q2 : triplet

/-- get_color_points (colormap.cpp line 416). -/
def get_color_points (O : MathOracle) (hue saturation warmth : ℚ)
    (pb : triplet) (pb_hue pb_saturation : ℚ) : ColorPoints :=
  let p0 := lch_to_luv O ⟨0, 0, hue⟩
  let p1 := most_saturated_in_srgb O hue
  let p2l := (1 - warmth) * 100 + warmth * pb.l
  let p2h := mix_hue O warmth hue pb_hue
  let p2c := lch_chroma p2l (min (s_max O p2l p2h) (warmth * saturation * pb_saturation))
  let p2 := lch_to_luv O ⟨p2l, p2c, p2h⟩
  let q0 : triplet := (1 - saturation) * p0 + saturation * p1
  let q2 : triplet := (1 - saturation) * p2 + saturation * p1
  let q1 : triplet := (0.5 : ℚ) * (q0 + q2)
  ⟨p0, p1, p2, q0, q1, q2⟩

/-- The quadratic Bezier evaluation b (colormap.cpp line 433). -/
def b (b0 b1 b2 : triplet) (t : ℚ) : triplet :=
  ((1 - t) * (1 - t)) * b0 + (2 * (1 - t) * t) * b1 + (t * t) * b2

/-- The scalar quadratic Bezier in one coordinate. -/
def bScalar (b0 b1 b2 t : ℚ) : ℚ :=
  (1 - t) * (1 - t) * b0 + 2 * (1 - t) * t * b1 + t * t * b2

/-- inv_b (colormap.cpp line 441): invert the scalar quadratic Bezier,
with the radicand clamped to be non-negative. -/
def inv_b (O : MathOracle) (b0 b1 b2 v : ℚ) : ℚ :=
  (b0 - b1 + O.sqrtO (max (b1 * b1 - b0 * b2 + (b0 - 2 * b1 + b2) * v) 0))
    / (b0 - 2 * b1 + b2)

/-- The exponential brightness ramp of get_colormap_entry (colormap.cpp
line 452): l = 125 - 125 * 0.2^((1-contrast)*brightness + t*contrast). -/
def ramp_l (O : MathOracle) (t contrast brightness : ℚ) : ℚ :=
  125 - 125 * O.powO 0.2 ((1 - contrast) * brightness + t * contrast)

/-- get_colormap_entry (colormap.cpp line 447). -/
def get_colormap_entry (O : MathOracle) (t : ℚ) (p0 p2 q0 q1 q2 : triplet)
    (contrast brightness : ℚ) : triplet :=
  let l := ramp_l O t contrast brightness
  let T := if l ≤ q1.l then 0.5 * inv_b O p0.l q0.l q1.l l
           else 0.5 * inv_b O q1.l q2.l p2.l l + 0.5
  if T ≤ 0.5 then b p0 q0 q1 (2 * T) else b q1 q2 p2 (2 * (T - 0.5))

/- Brewer-like color maps: per-entry colors. -/

/-- The cell-centered sampling position t = (i + 0.5) / n used by most
drivers (e.g. colormap.cpp line 475). -/
def cell_t (n i : ℕ) : ℚ := ((i : ℚ) + 0.5) / (n : ℚ)

/-- The endpoint-inclusive sampling position t = i / (n - 1) used by
PLSequentialMultiHue (colormap.cpp line 994). -/
def endpoint_t (n i : ℕ) : ℚ := (i : ℚ) / ((n : ℚ) - 1)

/-- The sampling position t = 1 - (i + 0.5) / n used by McNames
(colormap.cpp line 1197). -/
def mcNames_t (n i : ℕ) : ℚ := 1 - cell_t n i

/-- The color points used by BrewerSequential (colormap.cpp lines
467-471) for a given hue. -/
def brewerPoints (O : MathOracle) (hue saturation warmth : ℚ) : ColorPoints :=
  let pb := get_bright_point O
  let pb_lch := luv_to_lch O pb
  let pbs := lch_saturation pb_lch.l pb_lch.c
  get_color_points O hue saturation warmth pb pb_lch.h pbs

/-- The BrewerSequential path evaluated at normalized position t. -/
def brewerSeqLuvAt (O : MathOracle) (hue contrast saturation brightness warmth t : ℚ) :
    triplet :=
  let cp := brewerPoints O hue saturation warmth
  get_colormap_entry O t cp.p0 cp.p2 cp.q0 cp.q1 cp.q2 contrast brightness

/-- The LUV color of entry i of BrewerSequential (colormap.cpp lines
474-476): the path sampled at the cell-centered position. -/
def brewerSeqLuv (O : MathOracle) (hue contrast saturation brightness warmth : ℚ)
    (n i : ℕ) : triplet :=
  brewerSeqLuvAt O hue contrast saturation brightness warmth (cell_t n i)

/-- The second hue of BrewerDiverging (colormap.cpp lines 491-493). -/
def brewerDivHue1 (O : MathOracle) (hue divergence : ℚ) : ℚ :=
  let hue1 := hue + divergence
  if twopi O ≤ hue1 then hue1 - twopi O else hue1

/-- The LUV color of entry i of BrewerDiverging (colormap.cpp lines
505-532), including the neutral middle entry for odd n. -/
def brewerDivLuv (O : MathOracle) (hue divergence contrast saturation brightness warmth : ℚ)
    (n i : ℕ) : triplet :=
  let pb := get_bright_point O
  let pb_lch := luv_to_lch O pb
  let pbs := lch_saturation pb_lch.l pb_lch.c
  let cpa := get_color_points O hue saturation warmth pb pb_lch.h pbs
  let cpb := get_color_points O (brewerDivHue1 O hue divergence) saturation warmth pb pb_lch.h pbs
  if n % 2 = 1 ∧ i = n / 2 then
    let c0 := get_colormap_entry O 1 cpa.p0 cpa.p2 cpa.q0 cpa.q1 cpa.q2 contrast brightness
    let c1 := get_colormap_entry O 1 cpb.p0 cpb.p2 cpb.q0 cpb.q1 cpb.q2 contrast brightness
    if n ≤ 9 then
      let c0s := luv_saturation O c0
      let c1s := luv_saturation O c1
      let sn := 0.5 * (c0s + c1s) * warmth
      let cl := 0.5 * (c0.l + c1.l)
      let cc := lch_chroma cl (min (s_max O cl pb_lch.h) sn)
      lch_to_luv O ⟨cl, cc, pb_lch.h⟩
    else
      (0.5 : ℚ) * (c0 + c1)
  else
    let t := cell_t n i
    if i < n / 2 then
      get_colormap_entry O (2 * t) cpa.p0 cpa.p2 cpa.q0 cpa.q1 cpa.q2 contrast brightness
    else
      get_colormap_entry O (2 * (1 - t)) cpb.p0 cpb.p2 cpb.q0 cpb.q1 cpb.q2 contrast brightness

/-- The BrewerQualitative color at normalized position t. -/
def brewerQualLuvAt (O : MathOracle) (hue divergence contrast saturation brightness t : ℚ) :
    triplet :=
  let ylch := luv_to_lch O (xyz_to_luv O (rgb_to_xyz ⟨1, 1, 0⟩))
  let rs := luv_saturation O (xyz_to_luv O (rgb_to_xyz ⟨1, 0, 0⟩))
  let eps := hue / twopi O
  let r := divergence / twopi O
  let l0 := brightness * ylch.l
  let l1 := (1 - contrast) * l0
  let ch := cfmod (twopi O * (eps + t * r)) (twopi O)
  let alpha := hue_diff O ch ylch.h / O.piO
  let cl := (1 - alpha) * l0 + alpha * l1
  let cs := min (s_max O cl ch) (saturation * rs)
  lch_to_luv O ⟨cl, lch_chroma cl cs, ch⟩

/-- The LCH-derived LUV color of entry i of BrewerQualitative
(colormap.cpp lines 539-573): sampled cell-centered. -/
def brewerQualLuv (O : MathOracle) (hue divergence contrast saturation brightness : ℚ)
    (n i : ℕ) : triplet :=
  brewerQualLuvAt O hue divergence contrast saturation brightness (cell_t n i)

/- Perceptually linear (PL) maps. -/

/-- The deviation of a chroma candidate from the two distance targets
(colormap.cpp lines 613-615). -/
def lch_solution_error (O : MathOracle) (lch0 lch1 : triplet) (lchtL hue s D c : ℚ) : ℚ :=
  |lch_distance O lch0 ⟨lchtL, c, hue⟩ - s * D|
  + |lch_distance O lch1 ⟨lchtL, c, hue⟩ - (1 - s) * D|

/-- One step of the best-solution scan of lch_compute_uniform_lc
(colormap.cpp lines 608-622): skip out-of-range candidates, otherwise
keep the first candidate or any strictly better one. -/
def lchScanStep (cand err : Fin 4 → ℚ) (minc maxc : ℚ)
    (st : Option (Fin 4) × ℚ) (i : Fin 4) : Option (Fin 4) × ℚ :=
  if cand i < minc ∨ maxc < cand i then st
  else if st.1 = none ∨ err i < st.2 then (some i, err i) else st

/-- The scan over the four candidates, with the source's initial error
9999.9 and no selected index. -/
def lchScan (cand err : Fin 4 → ℚ) (minc maxc : ℚ) : Option (Fin 4) × ℚ :=
  [(0 : Fin 4), 1, 2, 3].foldl (lchScanStep cand err minc maxc) (none, 9999.9)

/-- The interpolated lightness of lch_compute_uniform_lc (colormap.cpp
lines 584-588): s relative to [t0, t1], lightness linear in s. -/
def lch_uniform_l (t t0 t1 : ℚ) (lch0 lch1 : triplet) : ℚ :=
  let s := (t - t0) / (t1 - t0)
  (1 - s) * lch0.l + s * lch1.l

/-- The four chroma candidates lcht_cs[0..3] of lch_compute_uniform_lc
(colormap.cpp lines 591-601), with the radicands clamped to 0 before the
square roots. -/
def lch_candidates (O : MathOracle) (t t0 t1 : ℚ)
    (lch0 lch1 : triplet) (D hue : ℚ) : Fin 4 → ℚ :=
  let s := (t - t0) / (t1 - t0)
  let lchtL := lch_uniform_l t t0 t1 lch0 lch1
  let tmp00 := lch0.c * O.cosO (hue - lch0.h)
  let tmp01 := max 0 (sqr tmp00 - sqr (lchtL - lch0.l) - sqr lch0.c + sqr (s * D))
  let tmp10 := lch1.c * O.cosO (hue - lch1.h)
  let tmp11 := max 0 (sqr tmp10 - sqr (lchtL - lch1.l) - sqr lch1.c + sqr ((1 - s) * D))
  fun i =>
    if i = 0 then tmp00 + O.sqrtO tmp01
    else if i = 1 then tmp00 - O.sqrtO tmp01
    else if i = 2 then tmp10 + O.sqrtO tmp11
    else tmp10 - O.sqrtO tmp11

/-- The solution error of candidate i (colormap.cpp lines 613-615). -/
def lch_cand_error (O : MathOracle) (t t0 t1 : ℚ)
    (lch0 lch1 : triplet) (D hue : ℚ) (i : Fin 4) : ℚ :=
  lch_solution_error O lch0 lch1 (lch_uniform_l t t0 t1 lch0 lch1) hue
    ((t - t0) / (t1 - t0)) D (lch_candidates O t t0 t1 lch0 lch1 D hue i)

/-- lch_compute_uniform_lc (colormap.cpp line 578): the
distance-constrained chroma solver. -/
def lch_compute_uniform_lc (O : MathOracle) (t t0 t1 : ℚ)
    (lch0 lch1 : triplet) (D hue : ℚ) : triplet :=
  let lchtL := lch_uniform_l t t0 t1 lch0 lch1
  let cand := lch_candidates O t t0 t1 lch0 lch1 D hue
  let err := lch_cand_error O t t0 t1 lch0 lch1 D hue
  let minc := min lch0.c lch1.c
  let maxc := max lch0.c lch1.c
  let sel := lchScan cand err minc maxc
  let c := match sel.1 with
    | none => 0.5 * (lch0.c + lch1.c)
    | some i => cand i
  ⟨lchtL, c, hue⟩

/-- The PLSequentialLightness path at normalized position t. -/
def plSeqLightnessLchAt (O : MathOracle) (lightness_range saturation hue t : ℚ) : triplet :=
  let l00 := (1 - lightness_range) * 100
  let lch00 : triplet := ⟨l00, lch_chroma l00 0, hue⟩
  let l10 := lightness_range * 100
  let lch10 : triplet := ⟨l10, lch_chroma l10 0, hue⟩
  let l05 := (1 - 0.5) * l00 + 0.5 * l10
  let lch05 : triplet := ⟨l05, lch_chroma l05 (5 * saturation), hue⟩
  let D0005 := lch_distance O lch00 lch05
  let D0510 := lch_distance O lch05 lch10
  if t ≤ 0.5 then lch_compute_uniform_lc O t 0 0.5 lch00 lch05 D0005 hue
  else lch_compute_uniform_lc O t 0.5 1 lch05 lch10 D0510 hue

/-- The LCH color of entry i of PLSequentialLightness (colormap.cpp
lines 633-663): sampled cell-centered. -/
def plSeqLightnessLch (O : MathOracle) (lightness_range saturation hue : ℚ)
    (n i : ℕ) : triplet :=
  plSeqLightnessLchAt O lightness_range saturation hue (cell_t n i)

/-- The PLSequentialSaturation path at normalized position t. -/
def plSeqSaturationLchAt (O : MathOracle) (saturation_range lightness saturation hue t : ℚ) :
    triplet :=
  let light := max 0.01 (lightness * 100)
  let lch00 : triplet := ⟨light, lch_chroma light (1 - saturation_range), hue⟩
  let lch10 : triplet := ⟨light, lch_chroma light (saturation_range * 5 * saturation), hue⟩
  let D0010 := lch_distance O lch00 lch10
  lch_compute_uniform_lc O t 0 1 lch00 lch10 D0010 hue

/-- The LCH color of entry i of PLSequentialSaturation (colormap.cpp
lines 667-689): sampled cell-centered. -/
def plSeqSaturationLch (O : MathOracle) (saturation_range lightness saturation hue : ℚ)
    (n i : ℕ) : triplet :=
  plSeqSaturationLchAt O saturation_range lightness saturation hue (cell_t n i)

/-- The PLSequentialRainbow path at normalized position t. -/
def plSeqRainbowLchAt (O : MathOracle) (lightness_range hue rotations saturation t : ℚ) :
    triplet :=
  let l00 := (1 - lightness_range) * 100
  let lch00 : triplet := ⟨l00, lch_chroma l00 ((1 - lightness_range) * saturation),
                          hue + 0 * rotations * twopi O⟩
  let l10 := lightness_range * 100
  let lch10 : triplet := ⟨l10, lch_chroma l10 ((1 - lightness_range) * saturation),
                          hue + 1 * rotations * twopi O⟩
  let l05 := 0.5 * (l00 + l10)
  let lch05 : triplet := ⟨l05, lch_chroma l05 saturation, hue + 0.5 * rotations * twopi O⟩
  let D0005 := lch_distance O lch00 lch05
  let D0510 := lch_distance O lch05 lch10
  let h := hue + t * rotations * twopi O
  if t ≤ 0.5 then lch_compute_uniform_lc O t 0 0.5 lch00 lch05 D0005 h
  else lch_compute_uniform_lc O t 0.5 1 lch05 lch10 D0510 h

/-- The LCH color of entry i of PLSequentialRainbow (colormap.cpp lines
693-725): sampled cell-centered. -/
def plSeqRainbowLch (O : MathOracle) (lightness_range hue rotations saturation : ℚ)
    (n i : ℕ) : triplet :=
  plSeqRainbowLchAt O lightness_range hue rotations saturation (cell_t n i)

/-- plancks_law (colormap.cpp line 728). -/
def plancks_law (O : MathOracle) (temperature lambda : ℚ) : ℚ :=
  let c : ℚ := 299792458
  let h : ℚ := 6.626070041e-34
  let k : ℚ := 1.38064853e-23
  2 * h * c * c * O.powO lambda (-5)
    / (O.expO (h * c / (lambda * k * temperature)) - 1)

set_option maxHeartbeats 1000000

/-- The CIE 1931 2 degree standard observer CMF table, 5nm resolution
from 380nm to 780nm (colormap.cpp lines 760-842). -/
def cmf_xyz : List triplet := [
  ⟨0.001368, 0.000039, 0.006450⟩,
  ⟨0.002236, 0.000064, 0.010550⟩,
  ⟨0.004243, 0.000120, 0.020050⟩,
  ⟨0.007650, 0.000217, 0.036210⟩,
  ⟨0.014310, 0.000396, 0.067850⟩,
  ⟨0.023190, 0.000640, 0.110200⟩,
  ⟨0.043510, 0.001210, 0.207400⟩,
  ⟨0.077630, 0.002180, 0.371300⟩,
  ⟨0.134380, 0.004000, 0.645600⟩,
  ⟨0.214770, 0.007300, 1.039050⟩,
  ⟨0.283900, 0.011600, 1.385600⟩,
  ⟨0.328500, 0.016840, 1.622960⟩,
  ⟨0.348280, 0.023000, 1.747060⟩,
  ⟨0.348060, 0.029800, 1.782600⟩,
  ⟨0.336200, 0.038000, 1.772110⟩,
  ⟨0.318700, 0.048000, 1.744100⟩,
  ⟨0.290800, 0.060000, 1.669200⟩,
  ⟨0.251100, 0.073900, 1.528100⟩,
  ⟨0.195360, 0.090980, 1.287640⟩,
  ⟨0.142100, 0.112600, 1.041900⟩,
  ⟨0.095640, 0.139020, 0.812950⟩,
  ⟨0.057950, 0.169300, 0.616200⟩,
  ⟨0.032010, 0.208020, 0.465180⟩,
  ⟨0.014700, 0.258600, 0.353300⟩,
  ⟨0.004900, 0.323000, 0.272000⟩,
  ⟨0.002400, 0.407300, 0.212300⟩,
  ⟨0.009300, 0.503000, 0.158200⟩,
  ⟨0.029100, 0.608200, 0.111700⟩,
  ⟨0.063270, 0.710000, 0.078250⟩,
  ⟨0.109600, 0.793200, 0.057250⟩,
  ⟨0.165500, 0.862000, 0.042160⟩,
  ⟨0.225750, 0.914850, 0.029840⟩,
  ⟨0.290400, 0.954000, 0.020300⟩,
  ⟨0.359700, 0.980300, 0.013400⟩,
  ⟨0.433450, 0.994950, 0.008750⟩,
  ⟨0.512050, 1.000000, 0.005750⟩,
  ⟨0.594500, 0.995000, 0.003900⟩,
  ⟨0.678400, 0.978600, 0.002750⟩,
  ⟨0.762100, 0.952000, 0.002100⟩,
  ⟨0.842500, 0.915400, 0.001800⟩,
  ⟨0.916300, 0.870000, 0.001650⟩,
  ⟨0.978600, 0.816300, 0.001400⟩,
  ⟨1.026300, 0.757000, 0.001100⟩,
  ⟨1.056700, 0.694900, 0.001000⟩,
  ⟨1.062200, 0.631000, 0.000800⟩,
  ⟨1.045600, 0.566800, 0.000600⟩,
  ⟨1.002600, 0.503000, 0.000340⟩,
  ⟨0.938400, 0.441200, 0.000240⟩,
  ⟨0.854450, 0.381000, 0.000190⟩,
  ⟨0.751400, 0.321000, 0.000100⟩,
  ⟨0.642400, 0.265000, 0.000050⟩,
  ⟨0.541900, 0.217000, 0.000030⟩,
  ⟨0.447900, 0.175000, 0.000020⟩,
  ⟨0.360800, 0.138200, 0.000010⟩,
  ⟨0.283500, 0.107000, 0.000000⟩,
  ⟨0.218700, 0.081600, 0.000000⟩,
  ⟨0.164900, 0.061000, 0.000000⟩,
  ⟨0.121200, 0.044580, 0.000000⟩,
  ⟨0.087400, 0.032000, 0.000000⟩,
  ⟨0.063600, 0.023200, 0.000000⟩,
  ⟨0.046770, 0.017000, 0.000000⟩,
  ⟨0.032900, 0.011920, 0.000000⟩,
  ⟨0.022700, 0.008210, 0.000000⟩,
  ⟨0.015840, 0.005723, 0.000000⟩,
  ⟨0.011359, 0.004102, 0.000000⟩,
  ⟨0.008111, 0.002929, 0.000000⟩,
  ⟨0.005790, 0.002091, 0.000000⟩,
  ⟨0.004109, 0.001484, 0.000000⟩,
  ⟨0.002899, 0.001047, 0.000000⟩,
  ⟨0.002049, 0.000740, 0.000000⟩,
  ⟨0.001440, 0.000520, 0.000000⟩,
  ⟨0.001000, 0.000361, 0.000000⟩,
  ⟨0.000690, 0.000249, 0.000000⟩,
  ⟨0.000476, 0.000172, 0.000000⟩,
  ⟨0.000332, 0.000120, 0.000000⟩,
  ⟨0.000235, 0.000085, 0.000000⟩,
  ⟨0.000166, 0.000060, 0.000000⟩,
  ⟨0.000117, 0.000042, 0.000000⟩,
  ⟨0.000083, 0.000030, 0.000000⟩,
  ⟨0.000059, 0.000021, 0.000000⟩,
  ⟨0.000042, 0.000015, 0.000000⟩]

/-- color_matching_function (colormap.cpp line 754): table lookup with
linear interpolation for wavelengths not on the 5nm grid, zero outside
380-780nm. -/
def color_matching_function (lambda : ℕ) : triplet :=
  if 380 ≤ lambda ∧ lambda ≤ 780 then
    let i := (lambda - 380) / 5
    let xyz := List.getD cmf_xyz i ⟨0, 0, 0⟩
    if lambda % 5 ≠ 0 then
      let xyz1 := List.getD cmf_xyz (i + 1) ⟨0, 0, 0⟩
      let alpha : ℚ := ((lambda % 5 : ℕ) : ℚ) / 5
      ((1 - alpha) * xyz + alpha * xyz1 : triplet)
    else xyz
  else ⟨0, 0, 0⟩

/-- The wavelengths visited by the PLSequentialBlackBody integration
loop (colormap.cpp line 869): 360, 365, ..., 830 nm. -/
def blackBodyLambdas : List ℕ := List.range' 360 95 5

/-- The spectral integration of PLSequentialBlackBody (colormap.cpp
lines 866-874) at black body temperature t. -/
def blackBodyXyzSum (O : MathOracle) (t : ℚ) : triplet :=
  blackBodyLambdas.foldl
    (fun (xyz : triplet) (lambda : ℕ) =>
      let s : ℚ := 5 * 1e-9
      let l : ℚ := (lambda : ℚ) * 1e-9
      let radiosity := O.piO * plancks_law O t l
      (xyz + (s * radiosity) * color_matching_function lambda : triplet))
    ⟨0, 0, 0⟩

/-- The LCH color of entry i of PLSequentialBlackBody (colormap.cpp
lines 860-877): the spectral result is rescaled to Y = 10 and converted
to LCH, then lightness and chroma are overridden by the driver's own
ramps; only the hue of the spectral result remains. -/
def plBlackBodyLchAt (O : MathOracle) (temperature range saturation fract : ℚ) : triplet :=
  let t := temperature + fract * range
  let xyz := blackBodyXyzSum O t
  let lch := luv_to_lch O (xyz_to_luv O (adjust_y xyz 10))
  let lchl := max 0.01 (fract * 100)
  ⟨lchl, lch_chroma lchl ((1 - fract) * saturation), lch.h⟩

/-- Entry i of PLSequentialBlackBody: sampled cell-centered. -/
def plBlackBodyLch (O : MathOracle) (temperature range saturation : ℚ)
    (n i : ℕ) : triplet :=
  plBlackBodyLchAt O temperature range saturation (cell_t n i)

/-- multi_hue_get (colormap.cpp line 884): piecewise-linear hue over the
control points, clamped at the ends; the linear scan that finds the
containing segment is a first-match search with fallback hues-2. -/
def multi_hue_get (t : ℚ) (hues : ℕ) (hue_values hue_positions : ℕ → ℚ) : ℚ :=
  if hues < 1 then 0
  else if hues = 1 then hue_values 0
  else if t ≤ hue_positions 0 then hue_values 0
  else if hue_positions (hues - 1) ≤ t then hue_values (hues - 1)
  else
    let i := ((List.range (hues - 2)).find? (fun i =>
        decide (hue_positions i ≤ t ∧ t < hue_positions (i + 1)))).getD (hues - 2)
    let p0 := hue_positions i
    let p1 := hue_positions (i + 1)
    let alpha := (t - p0) / (p1 - p0)
    (1 - alpha) * hue_values i + alpha * hue_values (i + 1)

/-- multi_hue_compute (colormap.cpp line 908): the alternate chroma
solve that treats hue as a Cartesian axis, with the two-block nearest
pairing of the four candidates. -/
def multi_hue_compute (O : MathOracle) (t t0 t1 : ℚ) (lch0 lch1 : triplet) (D : ℚ)
    (hues : ℕ) (hue_values hue_positions : ℕ → ℚ) : triplet :=
  let tt := (t - t0) / (t1 - t0)
  let h := multi_hue_get t hues hue_values hue_positions
  let l := (1 - tt) * lch0.l + tt * lch1.l
  let tmp0 := max 0 (sqr (tt * D) - sqr (lch0.l - l) - sqr (lch0.h - h))
  let c0 := lch0.c + O.sqrtO tmp0
  let c1 := lch0.c - O.sqrtO tmp0
  let tmp1 := max 0 (sqr ((1 - tt) * D) - sqr (lch1.l - l) - sqr (lch1.h - h))
  let c2 := lch1.c + O.sqrtO tmp1
  let c3 := lch1.c - O.sqrtO tmp1
  let base := (1 - tt) * lch0.c + tt * lch1.c
  let st1 : ℚ × ℚ :=
    if 0 ≤ c0 then
      let d2 := |c0 - c2|
      let d3 := |c0 - c3|
      if d2 < d3 then (d2, 0.5 * (c0 + c2)) else (d3, 0.5 * (c0 + c3))
    else (9999.9, base)
  let st2 : ℚ × ℚ :=
    if 0 ≤ c1 then
      let d2 := |c1 - c2|
      let d3 := |c1 - c3|
      if d2 < st1.1 ∧ d2 < d3 then (d2, 0.5 * (c1 + c2))
      else if d3 < st1.1 then (d3, 0.5 * (c1 + c3))
      else st1
    else st1
  ⟨l, st2.2, h⟩

/-- The LCH color of entry i of PLSequentialMultiHue (colormap.cpp lines
959-999); this driver samples at the endpoint-inclusive position
t = i / (n - 1). -/
def plSeqMultiHueLchAt (O : MathOracle) (hues : ℕ) (hue_values hue_positions : ℕ → ℚ)
    (l0 s0 l1 s1 s05 t : ℚ) : triplet :=
  let lch00 : triplet := ⟨l0, lch_chroma l0 s0, multi_hue_get 0 hues hue_values hue_positions⟩
  let lch10 : triplet := ⟨l1, lch_chroma l1 s1, multi_hue_get 1 hues hue_values hue_positions⟩
  let l05 := 0.5 * (l0 + l1)
  let lch05 : triplet := ⟨l05, lch_chroma l05 s05, multi_hue_get 0.5 hues hue_values hue_positions⟩
  let D0005 := lch_distance O lch00 lch05
  let D0510 := lch_distance O lch05 lch10
  if t ≤ 0.5 then multi_hue_compute O t 0 0.5 lch00 lch05 D0005 hues hue_values hue_positions
  else multi_hue_compute O t 0.5 1 lch05 lch10 D0510 hues hue_values hue_positions

/-- Entry i of PLSequentialMultiHue: sampled at the endpoint-inclusive
position i / (n - 1). -/
def plSeqMultiHueLch (O : MathOracle) (hues : ℕ) (hue_values hue_positions : ℕ → ℚ)
    (l0 s0 l1 s1 s05 : ℚ) (n i : ℕ) : triplet :=
  plSeqMultiHueLchAt O hues hue_values hue_positions l0 s0 l1 s1 s05 (endpoint_t n i)

/-- The LCH color of entry i of PLQualitativeHue (colormap.cpp lines
1039-1053). -/
def plQualHueLchAt (hue divergence lightness saturation : ℚ) (n : ℕ) (t : ℚ) : triplet :=
  let div2 := divergence * (((n : ℚ) - 1) / (n : ℚ))
  let ll := max 0.01 (lightness * 100)
  let cc := lch_chroma ll (saturation * 5)
  ⟨ll, cc, hue + t * div2⟩

/-- Entry i of PLQualitativeHue: sampled cell-centered. -/
def plQualHueLch (_O : MathOracle) (hue divergence lightness saturation : ℚ)
    (n i : ℕ) : triplet :=
  plQualHueLchAt hue divergence lightness saturation n (cell_t n i)

/- CubeHelix. -/

/-- The sRGB color of entry i of CubeHelix (colormap.cpp lines
1062-1072). -/
def cubeHelixSrgbAt (O : MathOracle) (hue rot saturation gamma fract : ℚ) : triplet :=
  let angle := twopi O * (hue / 3 + 1 + rot * fract)
  let fract2 := O.powO fract gamma
  let amp := saturation * fract2 * (1 - fract2) / 2
  let s := O.sinO angle
  let c := O.cosO angle
  ⟨fract2 + amp * (-0.14861 * c + 1.78277 * s),
   fract2 + amp * (-0.29227 * c - 0.90649 * s),
   fract2 + amp * (1.97294 * c)⟩

/-- Entry i of CubeHelix: sampled cell-centered. -/
def cubeHelixSrgb (O : MathOracle) (hue rot saturation gamma : ℚ) (n i : ℕ) : triplet :=
  cubeHelixSrgbAt O hue rot saturation gamma (cell_t n i)

/- Moreland. -/

/-- lab_to_msh (colormap.cpp line 1085). -/
def lab_to_msh (O : MathOracle) (lab : triplet) : triplet :=
  let m := O.sqrtO (lab.l * lab.l + lab.a * lab.a + lab.b * lab.b)
  let s := if 0.001 < m then O.acosO (lab.l / m) else 0
  let h := if 0.001 < s then O.atan2O lab.b lab.a else 0
  ⟨m, s, h⟩

/-- msh_to_lab (colormap.cpp line 1094). -/
def msh_to_lab (O : MathOracle) (msh : triplet) : triplet :=
  ⟨msh.m * O.cosO msh.s,
   msh.m * O.sinO msh.s * O.cosO msh.h,
   msh.m * O.sinO msh.s * O.sinO msh.h⟩

/-- adjust_hue (colormap.cpp line 1102). -/
def adjust_hue (O : MathOracle) (msh : triplet) (unsaturated_m : ℚ) : ℚ :=
  if unsaturated_m - 0.1 ≤ msh.m then msh.h
  else
    let hue_spin := msh.s * O.sqrtO (unsaturated_m * unsaturated_m - msh.m * msh.m)
        / (msh.m * O.sinO msh.s)
    if -O.piO / 3 < msh.h then msh.h + hue_spin else msh.h - hue_spin

/-- The MSH image of one Moreland endpoint color (colormap.cpp lines
1120-1123). -/
def morelandOmsh (O : MathOracle) (sr sg sb : ℕ) : triplet :=
  lab_to_msh O (xyz_to_lab O (rgb_to_xyz (srgb_to_rgb O
    ⟨uchar_to_float sr, uchar_to_float sg, uchar_to_float sb⟩)))

/-- The place_white test of Moreland (colormap.cpp line 1124). -/
def morelandPlaceWhite (O : MathOracle) (omsh0 omsh1 : triplet) : Prop :=
  0.05 ≤ omsh0.s ∧ 0.05 ≤ omsh1.s ∧ O.piO / 3 < hue_diff O omsh0.h omsh1.h

instance (O : MathOracle) (omsh0 omsh1 : triplet) :
    Decidable (morelandPlaceWhite O omsh0 omsh1) := by
  unfold morelandPlaceWhite; infer_instance

/-- The pre-conversion MSH point of entry i of Moreland (colormap.cpp
lines 1128-1150): white-midpoint placement, hue adjustment, and the
final linear MSH mix. -/
def morelandMshAt (O : MathOracle) (sr0 sg0 sb0 sr1 sg1 sb1 : ℕ) (t : ℚ) : triplet :=
  let omsh0 := morelandOmsh O sr0 sg0 sb0
  let omsh1 := morelandOmsh O sr1 sg1 sb1
  let mmid := max (max omsh0.m omsh1.m) 88
  let stage : triplet × triplet × ℚ :=
    if morelandPlaceWhite O omsh0 omsh1 then
      if t < 0.5 then (omsh0, ⟨mmid, 0, 0⟩, t * 2)
      else (⟨mmid, 0, 0⟩, omsh1, 2 * t - 1)
    else (omsh0, omsh1, t)
  let msh0 := stage.1
  let msh1 := stage.2.1
  let t2 := stage.2.2
  let msh0h := if msh0.s < 0.05 ∧ 0.05 ≤ msh1.s then adjust_hue O msh1 msh0.m else msh0.h
  let msh1h := if 0.05 ≤ msh0.s ∧ msh1.s < 0.05 then adjust_hue O msh0 msh1.m else msh1.h
  let msh0a : triplet := ⟨msh0.m, msh0.s, msh0h⟩
  let msh1a : triplet := ⟨msh1.m, msh1.s, msh1h⟩
  (1 - t2) * msh0a + t2 * msh1a

/-- Entry i of Moreland: sampled cell-centered. -/
def morelandMsh (O : MathOracle) (sr0 sg0 sb0 sr1 sg1 sb1 : ℕ) (n i : ℕ) : triplet :=
  morelandMshAt O sr0 sg0 sb0 sr1 sg1 sb1 (cell_t n i)

/- McNames. -/

/-- cart2pol (colormap.cpp line 1159): returns (theta, rho). -/
def cart2pol (O : MathOracle) (x y : ℚ) : ℚ × ℚ :=
  (O.atan2O y x, O.sqrtO (x * x + y * y))

/-- pol2cart (colormap.cpp line 1165): returns (x, y). -/
def pol2cart (O : MathOracle) (theta rho : ℚ) : ℚ × ℚ :=
  (rho * O.cosO theta, rho * O.sinO theta)

/-- windowfunc (colormap.cpp line 1171), the cosh-based branch. -/
def windowfunc (O : MathOracle) (t : ℚ) : ℚ :=
  let ww := O.sqrtO (3 / 8)
  0.95 * ww * (2 - O.coshO (O.acoshO 2 * (2 * t - 1)))

/-- The sRGB color of entry i of McNames (colormap.cpp lines 1196-1212);
this driver samples at t = 1 - (i + 0.5) / n. -/
def mcNamesSrgbAt (O : MathOracle) (periods t : ℚ) : triplet :=
  let sqrt3 := O.sqrtO 3
  let a12 := O.asinO (1 / sqrt3)
  let a23 := O.piO / 4
  let w := windowfunc O t
  let tt := (1 - t) * sqrt3
  let ttt := (tt - sqrt3 / 2) * periods * twopi O / sqrt3
  let r0 := tt
  let g0 := w * O.cosO ttt
  let b0 := w * O.sinO ttt
  let p1 := cart2pol O r0 g0
  let q1 := pol2cart O (p1.1 + a12) p1.2
  let r1 := q1.1
  let g1 := q1.2
  let b1 := b0
  let p2 := cart2pol O r1 b1
  let q2 := pol2cart O (p2.1 + a23) p2.2
  let r2 := q2.1
  let b2 := q2.2
  let g2 := g1
  ⟨r2, g2, b2⟩

/-- Entry i of McNames: sampled at the reversed cell-centered position
t = 1 - (i + 0.5) / n. -/
def mcNamesSrgb (O : MathOracle) (periods : ℚ) (n i : ℕ) : triplet :=
  mcNamesSrgbAt O periods (mcNames_t n i)

/- Output buffer model.  An unsigned char buffer is a map from byte
offsets to byte values; a C pointer colormap = buffer + off is the pair
(buffer, off).  Stores are explicit single-byte updates. -/

def Buf : Type := ℕ → ℕ

/-- Store one byte. -/
def updByte (buf : Buf) (o v : ℕ) : Buf := fun p => if p = o then v else buf p

/-- Store the three bytes of one colormap entry (colormap[0..2] = ...). -/
def writeEntry (buf : Buf) (base : ℕ) (e : ℕ × ℕ × ℕ) : Buf :=
  updByte (updByte (updByte buf base e.1) (base + 1) e.2.1) (base + 2) e.2.2

/-- The common driver loop shared by all palette drivers: for i in 0..n-1
quantize the i-th pre-quantization sRGB triple into bytes 3i..3i+2 (from
the pointer base off) and add 1 to the clip count when any channel
clipped.  Each driver below instantiates f with its per-entry sRGB
computation, so that runDriver f composed with srgb_quantize is exactly
the source's luv/lch/lab_to_colormap call on entry i. -/
def runDriver (f : ℕ → triplet) (n off : ℕ) (buf : Buf) : Buf × ℕ :=
  (List.range n).foldl
    (fun st i =>
      let q := srgb_quantize (f i)
      (writeEntry st.1 (off + 3 * i) q.1, st.2 + if q.2 then 1 else 0))
    (buf, 0)

/- Per-driver pre-quantization sRGB triples. -/

def brewerSeqSrgb (O : MathOracle) (hue contrast saturation brightness warmth : ℚ)
    (n i : ℕ) : triplet :=
  rgb_to_srgb O (xyz_to_rgb (luv_to_xyz
    (brewerSeqLuv O hue contrast saturation brightness warmth n i)))

def brewerDivSrgb (O : MathOracle) (hue divergence contrast saturation brightness warmth : ℚ)
    (n i : ℕ) : triplet :=
  rgb_to_srgb O (xyz_to_rgb (luv_to_xyz
    (brewerDivLuv O hue divergence contrast saturation brightness warmth n i)))

def brewerQualSrgb (O : MathOracle) (hue divergence contrast saturation brightness : ℚ)
    (n i : ℕ) : triplet :=
  rgb_to_srgb O (xyz_to_rgb (luv_to_xyz
    (brewerQualLuv O hue divergence contrast saturation brightness n i)))

def plSeqLightnessSrgb (O : MathOracle) (lightness_range saturation hue : ℚ)
    (n i : ℕ) : triplet :=
  rgb_to_srgb O (xyz_to_rgb (luv_to_xyz (lch_to_luv O
    (plSeqLightnessLch O lightness_range saturation hue n i))))

def plSeqSaturationSrgb (O : MathOracle) (saturation_range lightness saturation hue : ℚ)
    (n i : ℕ) : triplet :=
  rgb_to_srgb O (xyz_to_rgb (luv_to_xyz (lch_to_luv O
    (plSeqSaturationLch O saturation_range lightness saturation hue n i))))

def plSeqRainbowSrgb (O : MathOracle) (lightness_range hue rotations saturation : ℚ)
    (n i : ℕ) : triplet :=
  rgb_to_srgb O (xyz_to_rgb (luv_to_xyz (lch_to_luv O
    (plSeqRainbowLch O lightness_range hue rotations saturation n i))))

def plBlackBodySrgb (O : MathOracle) (temperature range saturation : ℚ)
    (n i : ℕ) : triplet :=
  rgb_to_srgb O (xyz_to_rgb (luv_to_xyz (lch_to_luv O
    (plBlackBodyLch O temperature range saturation n i))))

def plSeqMultiHueSrgb (O : MathOracle) (hues : ℕ) (hue_values hue_positions : ℕ → ℚ)
    (l0 s0 l1 s1 s05 : ℚ) (n i : ℕ) : triplet :=
  rgb_to_srgb O (xyz_to_rgb (luv_to_xyz (lch_to_luv O
    (plSeqMultiHueLch O hues hue_values hue_positions l0 s0 l1 s1 s05 n i))))

def plQualHueSrgb (O : MathOracle) (hue divergence lightness saturation : ℚ)
    (n i : ℕ) : triplet :=
  rgb_to_srgb O (xyz_to_rgb (luv_to_xyz (lch_to_luv O
    (plQualHueLch O hue divergence lightness saturation n i))))

def morelandSrgb (O : MathOracle) (sr0 sg0 sb0 sr1 sg1 sb1 : ℕ)
    (n i : ℕ) : triplet :=
  rgb_to_srgb O (xyz_to_rgb (lab_to_xyz (msh_to_lab O
    (morelandMsh O sr0 sg0 sb0 sr1 sg1 sb1 n i))))

/- Palette drivers as buffer transformers; return value is the final
buffer and the clip count (the int the C function returns). -/

/-- BrewerSequential (colormap.cpp line 464). -/
def BrewerSequential (O : MathOracle) (n off : ℕ) (buf : Buf)
    (hue contrast saturation brightness warmth : ℚ) : Buf × ℕ :=
  runDriver (brewerSeqSrgb O hue contrast saturation brightness warmth n) n off buf

/-- BrewerDiverging (colormap.cpp line 488). -/
def BrewerDiverging (O : MathOracle) (n off : ℕ) (buf : Buf)
    (hue divergence contrast saturation brightness warmth : ℚ) : Buf × ℕ :=
  runDriver (brewerDivSrgb O hue divergence contrast saturation brightness warmth n) n off buf

/-- BrewerQualitative (colormap.cpp line 539). -/
def BrewerQualitative (O : MathOracle) (n off : ℕ) (buf : Buf)
    (hue divergence contrast saturation brightness : ℚ) : Buf × ℕ :=
  runDriver (brewerQualSrgb O hue divergence contrast saturation brightness n) n off buf

/-- PLSequentialLightness (colormap.cpp line 633). -/
def PLSequentialLightness (O : MathOracle) (n off : ℕ) (buf : Buf)
    (lightness_range saturation hue : ℚ) : Buf × ℕ :=
  runDriver (plSeqLightnessSrgb O lightness_range saturation hue n) n off buf

/-- PLSequentialSaturation (colormap.cpp line 667). -/
def PLSequentialSaturation (O : MathOracle) (n off : ℕ) (buf : Buf)
    (saturation_range lightness saturation hue : ℚ) : Buf × ℕ :=
  runDriver (plSeqSaturationSrgb O saturation_range lightness saturation hue n) n off buf

/-- PLSequentialRainbow (colormap.cpp line 693). -/
def PLSequentialRainbow (O : MathOracle) (n off : ℕ) (buf : Buf)
    (lightness_range hue rotations saturation : ℚ) : Buf × ℕ :=
  runDriver (plSeqRainbowSrgb O lightness_range hue rotations saturation n) n off buf

/-- PLSequentialBlackBody (colormap.cpp line 857). -/
def PLSequentialBlackBody (O : MathOracle) (n off : ℕ) (buf : Buf)
    (temperature range saturation : ℚ) : Buf × ℕ :=
  runDriver (plBlackBodySrgb O temperature range saturation n) n off buf

/-- PLSequentialMultiHue (colormap.cpp line 959). -/
def PLSequentialMultiHue (O : MathOracle) (n off : ℕ) (buf : Buf)
    (hues : ℕ) (hue_values hue_positions : ℕ → ℚ)
    (l0 s0 l1 s1 s05 : ℚ) : Buf × ℕ :=
  runDriver (plSeqMultiHueSrgb O hues hue_values hue_positions l0 s0 l1 s1 s05 n) n off buf

/-- PLQualitativeHue (colormap.cpp line 1039). -/
def PLQualitativeHue (O : MathOracle) (n off : ℕ) (buf : Buf)
    (hue divergence lightness saturation : ℚ) : Buf × ℕ :=
  runDriver (plQualHueSrgb O hue divergence lightness saturation n) n off buf

/-- CubeHelix (colormap.cpp line 1058); it quantizes its sRGB triple
with three float_to_uchar calls exactly as srgb_quantize does. -/
def CubeHelix (O : MathOracle) (n off : ℕ) (buf : Buf)
    (hue rot saturation gamma : ℚ) : Buf × ℕ :=
  runDriver (cubeHelixSrgb O hue rot saturation gamma n) n off buf

/-- Moreland (colormap.cpp line 1116). -/
def Moreland (O : MathOracle) (n off : ℕ) (buf : Buf)
    (sr0 sg0 sb0 sr1 sg1 sb1 : ℕ) : Buf × ℕ :=
  runDriver (morelandSrgb O sr0 sg0 sb0 sr1 sg1 sb1 n) n off buf

/-- McNames (colormap.cpp line 1189). -/
def McNames (O : MathOracle) (n off : ℕ) (buf : Buf) (periods : ℚ) : Buf × ℕ :=
  runDriver (mcNamesSrgb O periods n) n off buf

/-- The inner byte-copy loop body shared by the two diverging drivers:
for j in 0..2, colormap[dst + j] = colormap[src + j], reading the
current buffer at each step. -/
def copy3 (buf : Buf) (dst src : ℕ) : Buf :=
  let b0 := updByte buf (dst + 0) (buf (src + 0))
  let b1 := updByte b0 (dst + 1) (b0 (src + 1))
  updByte b1 (dst + 2) (b1 (src + 2))

/-- The mirror loop of PLDivergingLightness (colormap.cpp lines
1017-1019). -/
def mirrorDL (lowerN higherN off : ℕ) (buf : Buf) : Buf :=
  (List.range higherN).foldl
    (fun bb i => copy3 bb (off + 3 * lowerN + 3 * i) (off + 3 * (higherN - 1 - i))) buf

/-- PLDivergingLightness (colormap.cpp line 1009). -/
def PLDivergingLightness (O : MathOracle) (n off : ℕ) (buf : Buf)
    (lightnessRange saturation hue divergence : ℚ) : Buf × ℕ :=
  let lowerN := n / 2
  let higherN := n - lowerN
  let r1 := PLSequentialLightness O higherN off buf lightnessRange saturation (hue + divergence)
  let bm := mirrorDL lowerN higherN off r1.1
  let r2 := PLSequentialLightness O lowerN off bm lightnessRange saturation hue
  (r2.1, r1.2 + r2.2)

/-- The mirror loop of PLDivergingSaturation (colormap.cpp lines
1032-1034). -/
def mirrorDS (lowerN off : ℕ) (buf : Buf) : Buf :=
  (List.range lowerN).foldl
    (fun bb i => copy3 bb (off + 3 * i) (off + 3 * lowerN + 3 * (lowerN - 1 - i))) buf

/-- PLDivergingSaturation (colormap.cpp line 1024). -/
def PLDivergingSaturation (O : MathOracle) (n off : ℕ) (buf : Buf)
    (saturationRange lightness saturation hue divergence : ℚ) : Buf × ℕ :=
  let lowerN := n / 2
  let higherN := n - lowerN
  let r1 := PLSequentialSaturation O lowerN (off + 3 * lowerN) buf saturationRange lightness saturation hue
  let bm := mirrorDS lowerN off r1.1
  let r2 := PLSequentialSaturation O higherN (off + 3 * lowerN) bm saturationRange lightness saturation (hue + divergence)
  (r2.1, r1.2 + r2.2)

/-- The pre-quantization sRGB triple behind output entry j of
PLDivergingLightness: entries below n/2 come from the second
sequential subcall (hue), the upper entries are the mirrored first
subcall (hue + divergence) at index n-1-j. -/
def plDivLightnessSrgb (O : MathOracle) (lightnessRange saturation hue divergence : ℚ)
    (n j : ℕ) : triplet :=
  let lowerN := n / 2
  let higherN := n - lowerN
  if j < lowerN then plSeqLightnessSrgb O lightnessRange saturation hue lowerN j
  else plSeqLightnessSrgb O lightnessRange saturation (hue + divergence) higherN (n - 1 - j)

/-- The pre-quantization sRGB triple behind output entry j of
PLDivergingSaturation: entries below n/2 are the mirrored first
subcall (hue) at index n/2-1-j, the upper entries come from the second
subcall (hue + divergence). -/
def plDivSaturationSrgb (O : MathOracle) (saturationRange lightness saturation hue divergence : ℚ)
    (n j : ℕ) : triplet :=
  let lowerN := n / 2
  let higherN := n - lowerN
  if j < lowerN then
    plSeqSaturationSrgb O saturationRange lightness saturation hue lowerN (lowerN - 1 - j)
  else
    plSeqSaturationSrgb O saturationRange lightness saturation (hue + divergence) higherN (j - lowerN)

/- Generic lemmas about the driver loop and the mirror loops. -/

/-- Select byte k of a quantized entry (k = 0, 1, 2). -/
def byteSel (e : ℕ × ℕ × ℕ) (k : ℕ) : ℕ :=
  if k = 0 then e.1 else if k = 1 then e.2.1 else e.2.2

/-- The byte that the driver loop writes at offset p (for off ≤ p <
off + 3n): byte (p - off) % 3 of entry (p - off) / 3. -/
def entryByte (f : ℕ → triplet) (off p : ℕ) : ℕ :=
  byteSel (srgb_quantize (f ((p - off) / 3))).1 ((p - off) % 3)

theorem writeEntry_spec (buf : Buf) (base : ℕ) (e : ℕ × ℕ × ℕ) (p : ℕ) :
    writeEntry buf base e p =
      if p = base + 2 then e.2.2
      else if p = base + 1 then e.2.1
      else if p = base then e.1
      else buf p := rfl

theorem float_to_uchar_le (x : ℚ) : (float_to_uchar x).1 ≤ 255 := by
  unfold float_to_uchar
  dsimp only
  split_ifs with h1 h2
  · exact Nat.zero_le 255
  · exact Nat.le_refl 255
  · omega

theorem byteSel_quantize_le (s : triplet) (k : ℕ) :
    byteSel (srgb_quantize s).1 k ≤ 255 := by
  unfold byteSel srgb_quantize
  dsimp only
  split_ifs <;> exact float_to_uchar_le _

theorem runDriver_succ (f : ℕ → triplet) (n off : ℕ) (buf : Buf) :
    runDriver f (n + 1) off buf =
      (writeEntry (runDriver f n off buf).1 (off + 3 * n) (srgb_quantize (f n)).1,
       (runDriver f n off buf).2 + if (srgb_quantize (f n)).2 then 1 else 0) := by
  unfold runDriver
  rw [List.range_succ, List.foldl_append]
  rfl

theorem runDriver_count (f : ℕ → triplet) (n off : ℕ) (buf : Buf) :
    (runDriver f n off buf).2
      = ((Finset.range n).filter (fun i => (srgb_quantize (f i)).2 = true)).card := by
  induction n with
  | zero => rfl
  | succ m ih =>
      rw [runDriver_succ]
      dsimp only
      rw [Finset.range_succ, Finset.filter_insert, ih]
      cases h : (srgb_quantize (f m)).2 with
      | true =>
          rw [if_pos rfl, if_pos rfl, Finset.card_insert_of_not_mem (by simp)]
      | false =>
          simp

theorem runDriver_count_le (f : ℕ → triplet) (n off : ℕ) (buf : Buf) :
    (runDriver f n off buf).2 ≤ n := by
  rw [runDriver_count]
  calc ((Finset.range n).filter _).card ≤ (Finset.range n).card :=
        Finset.card_filter_le _ _
    _ = n := Finset.card_range n

theorem runDriver_frame (f : ℕ → triplet) (n off : ℕ) (buf : Buf) (p : ℕ)
    (hp : p < off ∨ off + 3 * n ≤ p) :
    (runDriver f n off buf).1 p = buf p := by
  induction n with
  | zero => rfl
  | succ m ih =>
      rw [runDriver_succ]
      dsimp only
      rw [writeEntry_spec, if_neg (by omega), if_neg (by omega), if_neg (by omega)]
      exact ih (by omega)

theorem runDriver_in (f : ℕ → triplet) (n off : ℕ) (buf : Buf) (p : ℕ)
    (h1 : off ≤ p) (h2 : p < off + 3 * n) :
    (runDriver f n off buf).1 p = entryByte f off p := by
  induction n with
  | zero => omega
  | succ m ih =>
      rw [runDriver_succ]
      dsimp only
      rw [writeEntry_spec]
      by_cases hc : p < off + 3 * m
      · rw [if_neg (by omega), if_neg (by omega), if_neg (by omega)]
        exact ih hc
      · have h3 : p = off + 3 * m ∨ p = off + 3 * m + 1 ∨ p = off + 3 * m + 2 := by omega
        unfold entryByte
        rcases h3 with h | h | h <;> subst h
        · rw [if_neg (by omega), if_neg (by omega), if_pos rfl,
            show (off + 3 * m - off) / 3 = m by omega,
            show (off + 3 * m - off) % 3 = 0 by omega]
          rfl
        · rw [if_neg (by omega), if_pos rfl,
            show (off + 3 * m + 1 - off) / 3 = m by omega,
            show (off + 3 * m + 1 - off) % 3 = 1 by omega]
          rfl
        · rw [if_pos rfl,
            show (off + 3 * m + 2 - off) / 3 = m by omega,
            show (off + 3 * m + 2 - off) % 3 = 2 by omega]
          rfl

theorem runDriver_indep (f : ℕ → triplet) (n off : ℕ) (buf1 buf2 : Buf) (p : ℕ)
    (h1 : off ≤ p) (h2 : p < off + 3 * n) :
    (runDriver f n off buf1).1 p = (runDriver f n off buf2).1 p := by
  rw [runDriver_in f n off buf1 p h1 h2, runDriver_in f n off buf2 p h1 h2]

theorem runDriver_bound (f : ℕ → triplet) (n off : ℕ) (buf : Buf) (p : ℕ)
    (h1 : off ≤ p) (h2 : p < off + 3 * n) :
    (runDriver f n off buf).1 p ≤ 255 := by
  rw [runDriver_in f n off buf p h1 h2]
  exact byteSel_quantize_le _ _

theorem copy3_spec (buf : Buf) (dst src : ℕ)
    (h : dst = src ∨ src + 3 ≤ dst ∨ dst + 3 ≤ src) (p : ℕ) :
    copy3 buf dst src p =
      if p = dst then buf src
      else if p = dst + 1 then buf (src + 1)
      else if p = dst + 2 then buf (src + 2)
      else buf p := by
  simp only [copy3, updByte]
  rcases h with h | h | h <;>
    split_ifs <;>
      first
        | rfl
        | omega

/-- The mirror loop of PLDivergingLightness after its first m
iterations; mirrorDL is this with m = higherN. -/
def mirrorDLAux (lowerN higherN off m : ℕ) (buf : Buf) : Buf :=
  (List.range m).foldl
    (fun bb i => copy3 bb (off + 3 * lowerN + 3 * i) (off + 3 * (higherN - 1 - i))) buf

theorem mirrorDL_eq_aux (lowerN higherN off : ℕ) (buf : Buf) :
    mirrorDL lowerN higherN off buf = mirrorDLAux lowerN higherN off higherN buf := rfl

theorem mirrorDLAux_succ (lowerN higherN off k : ℕ) (buf : Buf) :
    mirrorDLAux lowerN higherN off (k + 1) buf =
      copy3 (mirrorDLAux lowerN higherN off k buf)
        (off + 3 * lowerN + 3 * k) (off + 3 * (higherN - 1 - k)) := by
  unfold mirrorDLAux
  rw [List.range_succ, List.foldl_append]
  rfl

theorem mirrorDLAux_spec (lowerN higherN off : ℕ) (buf : Buf)
    (hl : lowerN ≤ higherN) (hh : higherN ≤ lowerN + 1) :
    ∀ m, m ≤ higherN → ∀ p,
    mirrorDLAux lowerN higherN off m buf p =
      if off + 3 * lowerN ≤ p ∧ p < off + 3 * lowerN + 3 * m then
        buf (off + 3 * (higherN - 1 - ((p - (off + 3 * lowerN)) / 3))
             + (p - (off + 3 * lowerN)) % 3)
      else buf p := by
  intro m
  induction m with
  | zero =>
      intro _ p
      rw [if_neg (by omega)]
      rfl
  | succ k ih =>
      intro hm p
      have hk : k < higherN := by omega
      rw [mirrorDLAux_succ, copy3_spec _ _ _ (by omega) p]
      by_cases hin : off + 3 * lowerN + 3 * k ≤ p ∧ p < off + 3 * lowerN + 3 * (k + 1)
      · -- p is written by the k-th copy
        have hsrc : ∀ j, j < 3 →
            mirrorDLAux lowerN higherN off k buf (off + 3 * (higherN - 1 - k) + j)
              = buf (off + 3 * (higherN - 1 - k) + j) := by
          intro j hj
          rw [ih (by omega) _, if_neg (by omega)]
        have h3 : p = off + 3 * lowerN + 3 * k ∨ p = off + 3 * lowerN + 3 * k + 1
            ∨ p = off + 3 * lowerN + 3 * k + 2 := by omega
        rcases h3 with h | h | h <;> subst h
        · rw [if_pos rfl]
          rw [show off + 3 * (higherN - 1 - k) = off + 3 * (higherN - 1 - k) + 0 by omega] at hsrc ⊢
          rw [hsrc 0 (by omega), if_pos (by omega),
            show (off + 3 * lowerN + 3 * k - (off + 3 * lowerN)) / 3 = k by omega,
            show (off + 3 * lowerN + 3 * k - (off + 3 * lowerN)) % 3 = 0 by omega]
        · rw [if_neg (by omega), if_pos rfl, hsrc 1 (by omega), if_pos (by omega),
            show (off + 3 * lowerN + 3 * k + 1 - (off + 3 * lowerN)) / 3 = k by omega,
            show (off + 3 * lowerN + 3 * k + 1 - (off + 3 * lowerN)) % 3 = 1 by omega]
        · rw [if_neg (by omega), if_neg (by omega), if_pos rfl, hsrc 2 (by omega),
            if_pos (by omega),
            show (off + 3 * lowerN + 3 * k + 2 - (off + 3 * lowerN)) / 3 = k by omega,
            show (off + 3 * lowerN + 3 * k + 2 - (off + 3 * lowerN)) % 3 = 2 by omega]
      · -- p is untouched by the k-th copy
        rw [if_neg (by omega), if_neg (by omega), if_neg (by omega), ih (by omega) p]
        by_cases hr : off + 3 * lowerN ≤ p ∧ p < off + 3 * lowerN + 3 * k
        · rw [if_pos hr, if_pos (by omega)]
        · rw [if_neg hr, if_neg (by omega)]

/-- The mirror loop of PLDivergingSaturation after its first m
iterations; mirrorDS is this with m = lowerN. -/
def mirrorDSAux (lowerN off m : ℕ) (buf : Buf) : Buf :=
  (List.range m).foldl
    (fun bb i => copy3 bb (off + 3 * i) (off + 3 * lowerN + 3 * (lowerN - 1 - i))) buf

theorem mirrorDS_eq_aux (lowerN off : ℕ) (buf : Buf) :
    mirrorDS lowerN off buf = mirrorDSAux lowerN off lowerN buf := rfl

theorem mirrorDSAux_succ (lowerN off k : ℕ) (buf : Buf) :
    mirrorDSAux lowerN off (k + 1) buf =
      copy3 (mirrorDSAux lowerN off k buf)
        (off + 3 * k) (off + 3 * lowerN + 3 * (lowerN - 1 - k)) := by
  unfold mirrorDSAux
  rw [List.range_succ, List.foldl_append]
  rfl

theorem mirrorDSAux_spec (lowerN off : ℕ) (buf : Buf) :
    ∀ m, m ≤ lowerN → ∀ p,
    mirrorDSAux lowerN off m buf p =
      if off ≤ p ∧ p < off + 3 * m then
        buf (off + 3 * lowerN + 3 * (lowerN - 1 - ((p - off) / 3)) + (p - off) % 3)
      else buf p := by
  intro m
  induction m with
  | zero =>
      intro _ p
      rw [if_neg (by omega)]
      rfl
  | succ k ih =>
      intro hm p
      have hk : k < lowerN := by omega
      rw [mirrorDSAux_succ, copy3_spec _ _ _ (by omega) p]
      by_cases hin : off + 3 * k ≤ p ∧ p < off + 3 * (k + 1)
      · have hsrc : ∀ j, j < 3 →
            mirrorDSAux lowerN off k buf (off + 3 * lowerN + 3 * (lowerN - 1 - k) + j)
              = buf (off + 3 * lowerN + 3 * (lowerN - 1 - k) + j) := by
          intro j hj
          rw [ih (by omega) _, if_neg (by omega)]
        have h3 : p = off + 3 * k ∨ p = off + 3 * k + 1 ∨ p = off + 3 * k + 2 := by omega
        rcases h3 with h | h | h <;> subst h
        · rw [if_pos rfl]
          rw [show off + 3 * lowerN + 3 * (lowerN - 1 - k)
              = off + 3 * lowerN + 3 * (lowerN - 1 - k) + 0 by omega] at hsrc ⊢
          rw [hsrc 0 (by omega), if_pos (by omega),
            show (off + 3 * k - off) / 3 = k by omega,
            show (off + 3 * k - off) % 3 = 0 by omega]
        · rw [if_neg (by omega), if_pos rfl, hsrc 1 (by omega), if_pos (by omega),
            show (off + 3 * k + 1 - off) / 3 = k by omega,
            show (off + 3 * k + 1 - off) % 3 = 1 by omega]
        · rw [if_neg (by omega), if_neg (by omega), if_pos rfl, hsrc 2 (by omega),
            if_pos (by omega),
            show (off + 3 * k + 2 - off) / 3 = k by omega,
            show (off + 3 * k + 2 - off) % 3 = 2 by omega]
      · rw [if_neg (by omega), if_neg (by omega), if_neg (by omega), ih (by omega) p]
        by_cases hr : off ≤ p ∧ p < off + 3 * k
        · rw [if_pos hr, if_pos (by omega)]
        · rw [if_neg hr, if_neg (by omega)]

theorem entryByte_le (f : ℕ → triplet) (off p : ℕ) : entryByte f off p ≤ 255 :=
  byteSel_quantize_le _ _

/- Composition lemmas for the two diverging PL drivers. -/

theorem PLDivergingLightness_frame (O : MathOracle) (n off : ℕ) (buf : Buf)
    (lightnessRange saturation hue divergence : ℚ) (p : ℕ)
    (hp : p < off ∨ off + 3 * n ≤ p) :
    (PLDivergingLightness O n off buf lightnessRange saturation hue divergence).1 p = buf p := by
  unfold PLDivergingLightness PLSequentialLightness
  dsimp only
  rw [runDriver_frame _ _ _ _ _ (by omega),
    mirrorDL_eq_aux, mirrorDLAux_spec _ _ _ _ (by omega) (by omega) _ (le_refl _) p,
    if_neg (by omega),
    runDriver_frame _ _ _ _ _ (by omega)]

theorem PLDivergingLightness_buf (O : MathOracle) (n off : ℕ) (buf : Buf)
    (lightnessRange saturation hue divergence : ℚ) (p : ℕ)
    (h1 : off ≤ p) (h2 : p < off + 3 * n) :
    (PLDivergingLightness O n off buf lightnessRange saturation hue divergence).1 p
      = entryByte (plDivLightnessSrgb O lightnessRange saturation hue divergence n) off p := by
  unfold PLDivergingLightness PLSequentialLightness
  dsimp only
  by_cases hc : p < off + 3 * (n / 2)
  · -- written by the second sequential subcall (hue, lowerN entries)
    rw [runDriver_in _ _ _ _ _ h1 (by omega)]
    unfold entryByte plDivLightnessSrgb
    dsimp only
    rw [if_pos (by omega)]
  · -- mirrored from the first sequential subcall (hue + divergence)
    rw [runDriver_frame _ _ _ _ _ (by omega),
      mirrorDL_eq_aux, mirrorDLAux_spec _ _ _ _ (by omega) (by omega) _ (le_refl _) p,
      if_pos (by omega),
      runDriver_in _ _ _ _ _ (by omega) (by omega)]
    unfold entryByte plDivLightnessSrgb
    dsimp only
    rw [if_neg (by omega)]
    rw [show (off + 3 * (n - n / 2 - 1 - (p - (off + 3 * (n / 2))) / 3)
          + (p - (off + 3 * (n / 2))) % 3 - off) / 3
        = n - 1 - (p - off) / 3 by omega,
      show (off + 3 * (n - n / 2 - 1 - (p - (off + 3 * (n / 2))) / 3)
          + (p - (off + 3 * (n / 2))) % 3 - off) % 3
        = (p - off) % 3 by omega]

theorem PLDivergingLightness_count (O : MathOracle) (n off : ℕ) (buf : Buf)
    (lightnessRange saturation hue divergence : ℚ) :
    (PLDivergingLightness O n off buf lightnessRange saturation hue divergence).2
      = ((Finset.range n).filter (fun j =>
          (srgb_quantize (plDivLightnessSrgb O lightnessRange saturation hue divergence n j)).2
            = true)).card := by
  unfold PLDivergingLightness PLSequentialLightness
  dsimp only
  rw [runDriver_count, runDriver_count]
  have hsplit : Finset.range n = Finset.range (n / 2) ∪ Finset.Ico (n / 2) n := by
    rw [Finset.range_eq_Ico]
    exact (Finset.Ico_union_Ico_eq_Ico (Nat.zero_le _) (by omega)).symm
  rw [hsplit, Finset.filter_union,
    Finset.card_union_of_disjoint (Finset.disjoint_filter_filter
      (by rw [Finset.range_eq_Ico]; exact Finset.Ico_disjoint_Ico_consecutive 0 (n / 2) n))]
  have hlow : ((Finset.range (n / 2)).filter (fun j =>
        (srgb_quantize (plDivLightnessSrgb O lightnessRange saturation hue divergence n j)).2
          = true)).card
      = ((Finset.range (n / 2)).filter (fun i =>
        (srgb_quantize (plSeqLightnessSrgb O lightnessRange saturation hue (n / 2) i)).2
          = true)).card := by
    congr 1
    apply Finset.filter_congr
    intro j hj
    rw [Finset.mem_range] at hj
    unfold plDivLightnessSrgb
    rw [if_pos (by omega)]
  have hhigh : ((Finset.Ico (n / 2) n).filter (fun j =>
        (srgb_quantize (plDivLightnessSrgb O lightnessRange saturation hue divergence n j)).2
          = true)).card
      = ((Finset.range (n - n / 2)).filter (fun i =>
        (srgb_quantize (plSeqLightnessSrgb O lightnessRange saturation (hue + divergence)
          (n - n / 2) i)).2 = true)).card := by
    apply Finset.card_nbij' (fun j => n - 1 - j) (fun i => n - 1 - i)
    · intro a ha
      simp only [Finset.mem_filter, Finset.mem_Ico, Finset.mem_range] at ha ⊢
      obtain ⟨⟨ha1, ha2⟩, hp⟩ := ha
      refine ⟨by omega, ?_⟩
      unfold plDivLightnessSrgb at hp
      rw [if_neg (by omega)] at hp
      exact hp
    · intro a ha
      simp only [Finset.mem_filter, Finset.mem_Ico, Finset.mem_range] at ha ⊢
      obtain ⟨ha1, hp⟩ := ha
      refine ⟨by omega, ?_⟩
      unfold plDivLightnessSrgb
      rw [if_neg (by omega), show n - 1 - (n - 1 - a) = a by omega]
      exact hp
    · intro a ha
      simp only [Finset.mem_filter, Finset.mem_Ico] at ha
      omega
    · intro a ha
      simp only [Finset.mem_filter, Finset.mem_range] at ha
      omega
  rw [hlow, hhigh]
  omega

theorem PLDivergingSaturation_frame (O : MathOracle) (n off : ℕ) (buf : Buf)
    (saturationRange lightness saturation hue divergence : ℚ) (p : ℕ)
    (hp : p < off ∨ off + 3 * n ≤ p) :
    (PLDivergingSaturation O n off buf saturationRange lightness saturation hue divergence).1 p
      = buf p := by
  unfold PLDivergingSaturation PLSequentialSaturation
  dsimp only
  rw [runDriver_frame _ _ _ _ _ (by omega),
    mirrorDS_eq_aux, mirrorDSAux_spec _ _ _ _ (le_refl _) p,
    if_neg (by omega),
    runDriver_frame _ _ _ _ _ (by omega)]

theorem PLDivergingSaturation_buf (O : MathOracle) (n off : ℕ) (buf : Buf)
    (saturationRange lightness saturation hue divergence : ℚ) (p : ℕ)
    (h1 : off ≤ p) (h2 : p < off + 3 * n) :
    (PLDivergingSaturation O n off buf saturationRange lightness saturation hue divergence).1 p
      = entryByte (plDivSaturationSrgb O saturationRange lightness saturation hue divergence n)
          off p := by
  unfold PLDivergingSaturation PLSequentialSaturation
  dsimp only
  by_cases hc : p < off + 3 * (n / 2)
  · -- mirrored from the first sequential subcall (hue)
    rw [runDriver_frame _ _ _ _ _ (by omega),
      mirrorDS_eq_aux, mirrorDSAux_spec _ _ _ _ (le_refl _) p,
      if_pos (by omega),
      runDriver_in _ _ _ _ _ (by omega) (by omega)]
    unfold entryByte plDivSaturationSrgb
    dsimp only
    rw [if_pos (by omega)]
    rw [show (off + 3 * (n / 2) + 3 * (n / 2 - 1 - (p - off) / 3) + (p - off) % 3
          - (off + 3 * (n / 2))) / 3
        = n / 2 - 1 - (p - off) / 3 by omega,
      show (off + 3 * (n / 2) + 3 * (n / 2 - 1 - (p - off) / 3) + (p - off) % 3
          - (off + 3 * (n / 2))) % 3
        = (p - off) % 3 by omega]
  · -- written by the second sequential subcall (hue + divergence)
    rw [runDriver_in _ _ _ _ _ (by omega) (by omega)]
    unfold entryByte plDivSaturationSrgb
    dsimp only
    rw [if_neg (by omega)]
    rw [show (p - (off + 3 * (n / 2))) / 3 = (p - off) / 3 - n / 2 by omega,
      show (p - (off + 3 * (n / 2))) % 3 = (p - off) % 3 by omega]

theorem PLDivergingSaturation_count (O : MathOracle) (n off : ℕ) (buf : Buf)
    (saturationRange lightness saturation hue divergence : ℚ) :
    (PLDivergingSaturation O n off buf saturationRange lightness saturation hue divergence).2
      = ((Finset.range n).filter (fun j =>
          (srgb_quantize (plDivSaturationSrgb O saturationRange lightness saturation hue
            divergence n j)).2 = true)).card := by
  unfold PLDivergingSaturation PLSequentialSaturation
  dsimp only
  rw [runDriver_count, runDriver_count]
  have hsplit : Finset.range n = Finset.range (n / 2) ∪ Finset.Ico (n / 2) n := by
    rw [Finset.range_eq_Ico]
    exact (Finset.Ico_union_Ico_eq_Ico (Nat.zero_le _) (by omega)).symm
  rw [hsplit, Finset.filter_union,
    Finset.card_union_of_disjoint (Finset.disjoint_filter_filter
      (by rw [Finset.range_eq_Ico]; exact Finset.Ico_disjoint_Ico_consecutive 0 (n / 2) n))]
  have hlow : ((Finset.range (n / 2)).filter (fun j =>
        (srgb_quantize (plDivSaturationSrgb O saturationRange lightness saturation hue
          divergence n j)).2 = true)).card
      = ((Finset.range (n / 2)).filter (fun i =>
        (srgb_quantize (plSeqSaturationSrgb O saturationRange lightness saturation hue
          (n / 2) i)).2 = true)).card := by
    apply Finset.card_nbij' (fun j => n / 2 - 1 - j) (fun i => n / 2 - 1 - i)
    · intro a ha
      simp only [Finset.mem_filter, Finset.mem_range] at ha ⊢
      obtain ⟨ha1, hp⟩ := ha
      refine ⟨by omega, ?_⟩
      unfold plDivSaturationSrgb at hp
      rw [if_pos (by omega)] at hp
      exact hp
    · intro a ha
      simp only [Finset.mem_filter, Finset.mem_range] at ha ⊢
      obtain ⟨ha1, hp⟩ := ha
      refine ⟨by omega, ?_⟩
      unfold plDivSaturationSrgb
      rw [if_pos (by omega), show n / 2 - 1 - (n / 2 - 1 - a) = a by omega]
      exact hp
    · intro a ha
      simp only [Finset.mem_filter, Finset.mem_range] at ha
      omega
    · intro a ha
      simp only [Finset.mem_filter, Finset.mem_range] at ha
      omega
  have hhigh : ((Finset.Ico (n / 2) n).filter (fun j =>
        (srgb_quantize (plDivSaturationSrgb O saturationRange lightness saturation hue
          divergence n j)).2 = true)).card
      = ((Finset.range (n - n / 2)).filter (fun i =>
        (srgb_quantize (plSeqSaturationSrgb O saturationRange lightness saturation
          (hue + divergence) (n - n / 2) i)).2 = true)).card := by
    apply Finset.card_nbij' (fun j => j - n / 2) (fun i => i + n / 2)
    · intro a ha
      simp only [Finset.mem_filter, Finset.mem_Ico, Finset.mem_range] at ha ⊢
      obtain ⟨⟨ha1, ha2⟩, hp⟩ := ha
      refine ⟨by omega, ?_⟩
      unfold plDivSaturationSrgb at hp
      rw [if_neg (by omega)] at hp
      exact hp
    · intro a ha
      simp only [Finset.mem_filter, Finset.mem_Ico, Finset.mem_range] at ha ⊢
      obtain ⟨ha1, hp⟩ := ha
      refine ⟨by omega, ?_⟩
      unfold plDivSaturationSrgb
      rw [if_neg (by omega), show a + n / 2 - n / 2 = a by omega]
      exact hp
    · intro a ha
      simp only [Finset.mem_filter, Finset.mem_Ico] at ha
      omega
    · intro a ha
      simp only [Finset.mem_filter, Finset.mem_range] at ha
      omega
  rw [hlow, hhigh]

/- The best-solution scan of lch_compute_uniform_lc: invariant and
characterisation. -/

/-- Invariant of the candidate scan: either nothing was selected and all
candidates seen so far are out of range, or the selected candidate is in
range, carries its own error, and its error is minimal among the
in-range candidates seen so far. -/
def lchScanInv (cand err : Fin 4 → ℚ) (minc maxc : ℚ)
    (seen : List (Fin 4)) (st : Option (Fin 4) × ℚ) : Prop :=
  (st.1 = none ∧ ∀ j ∈ seen, cand j < minc ∨ maxc < cand j)
  ∨ ∃ i, st.1 = some i ∧ st.2 = err i
      ∧ ¬(cand i < minc ∨ maxc < cand i)
      ∧ ∀ j ∈ seen, ¬(cand j < minc ∨ maxc < cand j) → err i ≤ err j

theorem lchScanStep_inv (cand err : Fin 4 → ℚ) (minc maxc : ℚ)
    (seen : List (Fin 4)) (st : Option (Fin 4) × ℚ) (a : Fin 4)
    (h : lchScanInv cand err minc maxc seen st) :
    lchScanInv cand err minc maxc (seen ++ [a]) (lchScanStep cand err minc maxc st a) := by
  unfold lchScanStep
  by_cases hr : cand a < minc ∨ maxc < cand a
  · rw [if_pos hr]
    rcases h with ⟨hn, hall⟩ | ⟨i, hi, he, hir, hmin⟩
    · exact Or.inl ⟨hn, by
        intro j hj
        rcases List.mem_append.1 hj with hj | hj
        · exact hall j hj
        · rw [List.mem_singleton.1 hj]; exact hr⟩
    · exact Or.inr ⟨i, hi, he, hir, by
        intro j hj hjr
        rcases List.mem_append.1 hj with hj | hj
        · exact hmin j hj hjr
        · rw [List.mem_singleton.1 hj] at hjr; exact absurd hr hjr⟩
  · rw [if_neg hr]
    by_cases hu : st.1 = none ∨ err a < st.2
    · rw [if_pos hu]
      refine Or.inr ⟨a, rfl, rfl, hr, ?_⟩
      intro j hj hjr
      rcases List.mem_append.1 hj with hj | hj
      · rcases h with ⟨hn, hall⟩ | ⟨i, hi, he, hir, hmin⟩
        · exact absurd (hall j hj) hjr
        · rcases hu with hu | hu
          · rw [hi] at hu; exact absurd hu (by simp)
          · rw [he] at hu
            exact le_trans (le_of_lt hu) (hmin j hj hjr)
      · rw [List.mem_singleton.1 hj]
    · rw [if_neg hu]
      push_neg at hu
      obtain ⟨hu1, hu2⟩ := hu
      rcases h with ⟨hn, hall⟩ | ⟨i, hi, he, hir, hmin⟩
      · exact absurd hn hu1
      · refine Or.inr ⟨i, hi, he, hir, ?_⟩
        intro j hj hjr
        rcases List.mem_append.1 hj with hj | hj
        · exact hmin j hj hjr
        · rw [List.mem_singleton.1 hj]
          rw [he] at hu2
          exact hu2
  
theorem lchScan_spec (cand err : Fin 4 → ℚ) (minc maxc : ℚ) :
    ((lchScan cand err minc maxc).1 = none
        ∧ ∀ j : Fin 4, cand j < minc ∨ maxc < cand j)
    ∨ ∃ i, (lchScan cand err minc maxc).1 = some i
        ∧ ¬(cand i < minc ∨ maxc < cand i)
        ∧ ∀ j : Fin 4, ¬(cand j < minc ∨ maxc < cand j) → err i ≤ err j := by
  have h0 : lchScanInv cand err minc maxc [] ((none : Option (Fin 4)), (9999.9 : ℚ)) :=
    Or.inl ⟨rfl, by intro j hj; exact absurd hj (List.not_mem_nil j)⟩
  have h1 := lchScanStep_inv cand err minc maxc [] _ 0 h0
  have h2 := lchScanStep_inv cand err minc maxc [0] _ 1 h1
  have h3 := lchScanStep_inv cand err minc maxc [0, 1] _ 2 h2
  have h4 := lchScanStep_inv cand err minc maxc [0, 1, 2] _ 3 h3
  have hall : ∀ j : Fin 4, j ∈ ([0, 1, 2, 3] : List (Fin 4)) := by decide
  have heq : lchScan cand err minc maxc
      = lchScanStep cand err minc maxc
          (lchScanStep cand err minc maxc
            (lchScanStep cand err minc maxc
              (lchScanStep cand err minc maxc (none, 9999.9) 0) 1) 2) 3 := rfl
  rcases h4 with ⟨hn, hrest⟩ | ⟨i, hi, he, hir, hmin⟩
  · exact Or.inl ⟨by rw [heq]; exact hn, fun j => hrest j (hall j)⟩
  · exact Or.inr ⟨i, by rw [heq]; exact hi, hir, fun j hjr => hmin j (hall j) hjr⟩

/- ------------------------------------------------------------------ -/
/- Claim theorems.                                                     -/
/- ------------------------------------------------------------------ -/

/-- C8: for all LCH endpoints, total distance D and interpolation
fraction s = (t - t0) / (t1 - t0), the point returned by
lch_compute_uniform_lc has lightness (1-s)*L0 + s*L1, hue equal to the
supplied hue argument, and chroma that is either a candidate lying in
[min(C0,C1), max(C0,C1)] minimizing the summed deviation from the two
distance targets among all in-range candidates, or - when no candidate
is in range - the fallback average (C0+C1)/2; the two radicands are
clamped to be non-negative before each square root. -/
theorem C8_lch_compute_uniform_lc (O : MathOracle) (t t0 t1 : ℚ)
    (lch0 lch1 : triplet) (D hue : ℚ) :
    (lch_compute_uniform_lc O t t0 t1 lch0 lch1 D hue).h = hue
    ∧ (lch_compute_uniform_lc O t t0 t1 lch0 lch1 D hue).l
        = (1 - (t - t0) / (t1 - t0)) * lch0.l + (t - t0) / (t1 - t0) * lch1.l
    ∧ (∃ rad0 rad1 : ℚ, 0 ≤ rad0 ∧ 0 ≤ rad1
        ∧ lch_candidates O t t0 t1 lch0 lch1 D hue 0
            = lch0.c * O.cosO (hue - lch0.h) + O.sqrtO rad0
        ∧ lch_candidates O t t0 t1 lch0 lch1 D hue 1
            = lch0.c * O.cosO (hue - lch0.h) - O.sqrtO rad0
        ∧ lch_candidates O t t0 t1 lch0 lch1 D hue 2
            = lch1.c * O.cosO (hue - lch1.h) + O.sqrtO rad1
        ∧ lch_candidates O t t0 t1 lch0 lch1 D hue 3
            = lch1.c * O.cosO (hue - lch1.h) - O.sqrtO rad1)
    ∧ (((∀ i : Fin 4, lch_candidates O t t0 t1 lch0 lch1 D hue i < min lch0.c lch1.c
            ∨ max lch0.c lch1.c < lch_candidates O t t0 t1 lch0 lch1 D hue i)
          ∧ (lch_compute_uniform_lc O t t0 t1 lch0 lch1 D hue).c
              = 0.5 * (lch0.c + lch1.c))
        ∨ (∃ i : Fin 4,
            (lch_compute_uniform_lc O t t0 t1 lch0 lch1 D hue).c
              = lch_candidates O t t0 t1 lch0 lch1 D hue i
            ∧ min lch0.c lch1.c ≤ lch_candidates O t t0 t1 lch0 lch1 D hue i
            ∧ lch_candidates O t t0 t1 lch0 lch1 D hue i ≤ max lch0.c lch1.c
            ∧ ∀ j : Fin 4, min lch0.c lch1.c ≤ lch_candidates O t t0 t1 lch0 lch1 D hue j
                → lch_candidates O t t0 t1 lch0 lch1 D hue j ≤ max lch0.c lch1.c
                → lch_cand_error O t t0 t1 lch0 lch1 D hue i
                    ≤ lch_cand_error O t t0 t1 lch0 lch1 D hue j)) := by
  refine ⟨rfl, rfl, ?_, ?_⟩
  · refine ⟨max 0 (sqr (lch0.c * O.cosO (hue - lch0.h))
        - sqr (lch_uniform_l t t0 t1 lch0 lch1 - lch0.l) - sqr lch0.c
        + sqr ((t - t0) / (t1 - t0) * D)),
      max 0 (sqr (lch1.c * O.cosO (hue - lch1.h))
        - sqr (lch_uniform_l t t0 t1 lch0 lch1 - lch1.l) - sqr lch1.c
        + sqr ((1 - (t - t0) / (t1 - t0)) * D)),
      le_max_left 0 _, le_max_left 0 _, rfl, rfl, rfl, rfl⟩
  · rcases lchScan_spec (lch_candidates O t t0 t1 lch0 lch1 D hue)
        (lch_cand_error O t t0 t1 lch0 lch1 D hue)
        (min lch0.c lch1.c) (max lch0.c lch1.c) with ⟨hn, hall⟩ | ⟨i, hi, hir, hmin⟩
    · refine Or.inl ⟨hall, ?_⟩
      show (match (lchScan (lch_candidates O t t0 t1 lch0 lch1 D hue)
          (lch_cand_error O t t0 t1 lch0 lch1 D hue)
          (min lch0.c lch1.c) (max lch0.c lch1.c)).1 with
        | none => (0.5 : ℚ) * (lch0.c + lch1.c)
        | some i => lch_candidates O t t0 t1 lch0 lch1 D hue i) = 0.5 * (lch0.c + lch1.c)
      rw [hn]
    · push_neg at hir
      refine Or.inr ⟨i, ?_, hir.1, hir.2, ?_⟩
      · show (match (lchScan (lch_candidates O t t0 t1 lch0 lch1 D hue)
            (lch_cand_error O t t0 t1 lch0 lch1 D hue)
            (min lch0.c lch1.c) (max lch0.c lch1.c)).1 with
          | none => (0.5 : ℚ) * (lch0.c + lch1.c)
          | some i => lch_candidates O t t0 t1 lch0 lch1 D hue i)
          = lch_candidates O t t0 t1 lch0 lch1 D hue i
        rw [hi]
      · intro j hj1 hj2
        exact hmin j (by push_neg; exact ⟨hj1, hj2⟩)

/-- C2 counterexample: luv_to_xyz is not division-safe at the boundary
input L = 0: its very first operation divides u by 13*L = 0, so the
checked embedding returns no result for the finite input (0, 1, 1). -/
theorem C2_counterexample : luv_to_xyzChecked ⟨0, 1, 1⟩ = none := by
  norm_num [luv_to_xyzChecked, qdiv?, triplet.u, triplet.l, triplet.v]

/-- C2 (amended): luv_to_xyz divides by 13*L and by 4*v_prime with no
guard; at L = 0 it divides by zero (see the counterexample), and for
every finite input with L different from 0 and nonzero computed v_prime
it performs no division by zero and the checked embedding returns
exactly the unchecked result. -/
theorem C2_luv_to_xyz_division (luv : triplet) (hl : luv.l ≠ 0)
    (hv : luv.v / (13 * luv.l) + d65_v_prime ≠ 0) :
    luv_to_xyzChecked luv = some (luv_to_xyz luv) := by
  have h13 : (13 : ℚ) * luv.l ≠ 0 := mul_ne_zero (by norm_num) hl
  have h4 : (4 : ℚ) * (luv.v / (13 * luv.l) + d65_v_prime) ≠ 0 :=
    mul_ne_zero (by norm_num) hv
  unfold luv_to_xyzChecked luv_to_xyz qdiv?
  rw [if_neg h13, if_neg h13]
  simp only [Option.bind_eq_bind, Option.some_bind]
  rw [if_neg h4, if_neg h4]
  rfl

/-- C2 witness: the amended theorem applies at the concrete finite input
(50, 0, 0). -/
theorem C2_witness :
    (⟨50, 0, 0⟩ : triplet).l ≠ 0
    ∧ ((⟨50, 0, 0⟩ : triplet).v / (13 * (⟨50, 0, 0⟩ : triplet).l) + d65_v_prime ≠ 0)
    ∧ luv_to_xyzChecked ⟨50, 0, 0⟩ = some (luv_to_xyz ⟨50, 0, 0⟩) :=
  have h1 : (⟨50, 0, 0⟩ : triplet).l ≠ 0 := by norm_num [triplet.l]
  have h2 : (⟨50, 0, 0⟩ : triplet).v / (13 * (⟨50, 0, 0⟩ : triplet).l) + d65_v_prime ≠ 0 := by
    norm_num [triplet.v, triplet.l, d65_v_prime, v_prime, d65_xyz, triplet.x, triplet.y,
      triplet.z]
  ⟨h1, h2, C2_luv_to_xyz_division ⟨50, 0, 0⟩ h1 h2⟩

/-- An all-zero oracle, used to instantiate witnesses of structural
theorems at a concrete input. -/
def Ozero : MathOracle :=
  ⟨fun _ => 0, fun _ => 0, fun _ => 0, fun _ _ => 0, fun _ => 0, fun _ => 0,
   fun _ _ => 0, fun _ => 0, fun _ => 0, fun _ => 0, fun _ => 0, 0⟩

/-- C5 counterexample: McNames does not sample at the cell-centered
position (i + 0.5) / n: at n = 2, i = 0 its position is 3/4, not 1/4. -/
theorem C5_counterexample : mcNames_t 2 0 = 3 / 4 ∧ mcNames_t 2 0 ≠ cell_t 2 0 := by
  norm_num [mcNames_t, cell_t]

/-- C5 (amended): the sampling conventions of the drivers.  The
cell-centered position is (i + 0.5) / n and is used by BrewerSequential,
BrewerDiverging (before folding into its two halves), BrewerQualitative,
PLSequentialLightness / Saturation / Rainbow / BlackBody,
PLQualitativeHue, CubeHelix and Moreland; PLSequentialMultiHue uses the
endpoint-inclusive position i / (n - 1); McNames uses the reversed
position 1 - (i + 0.5) / n; the diverging PL drivers do not sample
directly - they delegate to the sequential drivers on each half. -/
theorem C5_sampling_positions (O : MathOracle) (n i : ℕ)
    (hue divergence contrast saturation brightness warmth lightness lightness_range
      saturation_range rotations temperature rangeK gamma periods rot
      l0 s0 l1 s1 s05 : ℚ)
    (hues sr0 sg0 sb0 sr1 sg1 sb1 : ℕ) (hue_values hue_positions : ℕ → ℚ) :
    cell_t n i = ((i : ℚ) + 0.5) / (n : ℚ)
    ∧ endpoint_t n i = (i : ℚ) / ((n : ℚ) - 1)
    ∧ mcNames_t n i = 1 - ((i : ℚ) + 0.5) / (n : ℚ)
    ∧ brewerSeqLuv O hue contrast saturation brightness warmth n i
        = brewerSeqLuvAt O hue contrast saturation brightness warmth (cell_t n i)
    ∧ brewerQualLuv O hue divergence contrast saturation brightness n i
        = brewerQualLuvAt O hue divergence contrast saturation brightness (cell_t n i)
    ∧ plSeqLightnessLch O lightness_range saturation hue n i
        = plSeqLightnessLchAt O lightness_range saturation hue (cell_t n i)
    ∧ plSeqSaturationLch O saturation_range lightness saturation hue n i
        = plSeqSaturationLchAt O saturation_range lightness saturation hue (cell_t n i)
    ∧ plSeqRainbowLch O lightness_range hue rotations saturation n i
        = plSeqRainbowLchAt O lightness_range hue rotations saturation (cell_t n i)
    ∧ plBlackBodyLch O temperature rangeK saturation n i
        = plBlackBodyLchAt O temperature rangeK saturation (cell_t n i)
    ∧ plQualHueLch O hue divergence lightness saturation n i
        = plQualHueLchAt hue divergence lightness saturation n (cell_t n i)
    ∧ cubeHelixSrgb O hue rot saturation gamma n i
        = cubeHelixSrgbAt O hue rot saturation gamma (cell_t n i)
    ∧ morelandMsh O sr0 sg0 sb0 sr1 sg1 sb1 n i
        = morelandMshAt O sr0 sg0 sb0 sr1 sg1 sb1 (cell_t n i)
    ∧ plSeqMultiHueLch O hues hue_values hue_positions l0 s0 l1 s1 s05 n i
        = plSeqMultiHueLchAt O hues hue_values hue_positions l0 s0 l1 s1 s05 (endpoint_t n i)
    ∧ mcNamesSrgb O periods n i = mcNamesSrgbAt O periods (mcNames_t n i)
    ∧ (let pb := get_bright_point O
       let pb_lch := luv_to_lch O pb
       let pbs := lch_saturation pb_lch.l pb_lch.c
       let cpa := get_color_points O hue saturation warmth pb pb_lch.h pbs
       let cpb := get_color_points O (brewerDivHue1 O hue divergence) saturation warmth
                    pb pb_lch.h pbs
       ¬(n % 2 = 1 ∧ i = n / 2) →
         brewerDivLuv O hue divergence contrast saturation brightness warmth n i
           = if i < n / 2 then
               get_colormap_entry O (2 * cell_t n i) cpa.p0 cpa.p2 cpa.q0 cpa.q1 cpa.q2
                 contrast brightness
             else
               get_colormap_entry O (2 * (1 - cell_t n i)) cpb.p0 cpb.p2 cpb.q0 cpb.q1 cpb.q2
                 contrast brightness) := by
  refine ⟨rfl, rfl, ?_, rfl, rfl, rfl, rfl, rfl, rfl, rfl, rfl, rfl, rfl, rfl, ?_⟩
  · unfold mcNames_t cell_t
    ring
  · intro pb pb_lch pbs cpa cpb hmid
    simp only [brewerDivLuv]
    rw [if_neg hmid]

/-- C5 witness: the amended theorem applies at a concrete input (n = 2,
i = 0, the zero oracle, all parameters 0), and index 0 of a 2-entry map
is not the middle entry, so the BrewerDiverging clause is exercised. -/
theorem C5_witness :
    ¬(2 % 2 = 1 ∧ 0 = 2 / 2)
    ∧ (cell_t 2 0 = ((0 : ℚ) + 0.5) / (2 : ℚ)
        ∧ endpoint_t 2 0 = (0 : ℚ) / ((2 : ℚ) - 1)
        ∧ mcNames_t 2 0 = 1 - ((0 : ℚ) + 0.5) / (2 : ℚ)
        ∧ brewerSeqLuv Ozero 0 0 0 0 0 2 0 = brewerSeqLuvAt Ozero 0 0 0 0 0 (cell_t 2 0)
        ∧ brewerQualLuv Ozero 0 0 0 0 0 2 0 = brewerQualLuvAt Ozero 0 0 0 0 0 (cell_t 2 0)
        ∧ plSeqLightnessLch Ozero 0 0 0 2 0 = plSeqLightnessLchAt Ozero 0 0 0 (cell_t 2 0)
        ∧ plSeqSaturationLch Ozero 0 0 0 0 2 0
            = plSeqSaturationLchAt Ozero 0 0 0 0 (cell_t 2 0)
        ∧ plSeqRainbowLch Ozero 0 0 0 0 2 0 = plSeqRainbowLchAt Ozero 0 0 0 0 (cell_t 2 0)
        ∧ plBlackBodyLch Ozero 0 0 0 2 0 = plBlackBodyLchAt Ozero 0 0 0 (cell_t 2 0)
        ∧ plQualHueLch Ozero 0 0 0 0 2 0 = plQualHueLchAt 0 0 0 0 2 (cell_t 2 0)
        ∧ cubeHelixSrgb Ozero 0 0 0 0 2 0 = cubeHelixSrgbAt Ozero 0 0 0 0 (cell_t 2 0)
        ∧ morelandMsh Ozero 0 0 0 0 0 0 2 0 = morelandMshAt Ozero 0 0 0 0 0 0 (cell_t 2 0)
        ∧ plSeqMultiHueLch Ozero 0 (fun _ => 0) (fun _ => 0) 0 0 0 0 0 2 0
            = plSeqMultiHueLchAt Ozero 0 (fun _ => 0) (fun _ => 0) 0 0 0 0 0 (endpoint_t 2 0)
        ∧ mcNamesSrgb Ozero 0 2 0 = mcNamesSrgbAt Ozero 0 (mcNames_t 2 0)
        ∧ (let pb := get_bright_point Ozero
           let pb_lch := luv_to_lch Ozero pb
           let pbs := lch_saturation pb_lch.l pb_lch.c
           let cpa := get_color_points Ozero 0 0 0 pb pb_lch.h pbs
           let cpb := get_color_points Ozero (brewerDivHue1 Ozero 0 0) 0 0 pb pb_lch.h pbs
           ¬(2 % 2 = 1 ∧ 0 = 2 / 2) →
             brewerDivLuv Ozero 0 0 0 0 0 0 2 0
               = if 0 < 2 / 2 then
                   get_colormap_entry Ozero (2 * cell_t 2 0) cpa.p0 cpa.p2 cpa.q0 cpa.q1
                     cpa.q2 0 0
                 else
                   get_colormap_entry Ozero (2 * (1 - cell_t 2 0)) cpb.p0 cpb.p2 cpb.q0
                     cpb.q1 cpb.q2 0 0)) :=
  ⟨by norm_num,
   C5_sampling_positions Ozero 2 0 0 0 0 0 0 0 0 0 0 0 0 0 0 0 0 0 0 0 0 0 0 0 0 0 0 0 0
     (fun _ => 0) (fun _ => 0)⟩

/-- Generic shape of the spectral accumulation loop, x component. -/
theorem foldl_add_triplet_x (g : ℕ → triplet) (L : List ℕ) (a : triplet) :
    (L.foldl (fun xyz lambda => xyz + g lambda) a).x
      = a.x + (L.map (fun lambda => (g lambda).x)).sum := by
  induction L generalizing a with
  | nil => simp
  | cons hd tl ih =>
      simp only [List.foldl_cons, List.map_cons, List.sum_cons, ih, triplet.add_x]
      ring

/-- Generic shape of the spectral accumulation loop, y component. -/
theorem foldl_add_triplet_y (g : ℕ → triplet) (L : List ℕ) (a : triplet) :
    (L.foldl (fun xyz lambda => xyz + g lambda) a).y
      = a.y + (L.map (fun lambda => (g lambda).y)).sum := by
  induction L generalizing a with
  | nil => simp
  | cons hd tl ih =>
      simp only [List.foldl_cons, List.map_cons, List.sum_cons, ih, triplet.add_y]
      ring

/-- Generic shape of the spectral accumulation loop, z component. -/
theorem foldl_add_triplet_z (g : ℕ → triplet) (L : List ℕ) (a : triplet) :
    (L.foldl (fun xyz lambda => xyz + g lambda) a).z
      = a.z + (L.map (fun lambda => (g lambda).z)).sum := by
  induction L generalizing a with
  | nil => simp
  | cons hd tl ih =>
      simp only [List.foldl_cons, List.map_cons, List.sum_cons, ih, triplet.add_z]
      ring

/-- The oracle used by the C9 counterexample: the square root returns 55
and atan2 returns 0, so the spectral LCH conversion yields chroma 55
whatever the integral evaluates to. -/
def O9 : MathOracle :=
  ⟨fun _ => 0, fun _ => 0, fun _ => 55, fun _ _ => 0, fun _ => 0, fun _ => 0,
   fun _ _ => 0, fun _ => 0, fun _ => 0, fun _ => 0, fun _ => 0, 0⟩

/-- C9 counterexample: the chroma of a PLSequentialBlackBody entry is
not the chroma of the spectral result: for n = 2, i = 0 (and default
parameters 250, 6250, 2.3) the driver's entry has chroma
(1 - 1/4) * 2.3 * 25 = 43.125, while the LCH conversion of the spectral
integral has chroma 55 under an oracle whose square root is constantly
55; line 877 of colormap.cpp overwrites lch.c unconditionally. -/
theorem C9_counterexample :
    (plBlackBodyLch O9 250 6250 2.3 2 0).c
      ≠ (luv_to_lch O9 (xyz_to_luv O9
          (adjust_y (blackBodyXyzSum O9 (250 + cell_t 2 0 * 6250)) 10))).c := by
  have hcell : cell_t 2 0 = 1 / 4 := by norm_num [cell_t]
  have hl : (plBlackBodyLch O9 250 6250 2.3 2 0).c = 43.125 := by
    unfold plBlackBodyLch plBlackBodyLchAt
    rw [hcell]
    show lch_chroma (max 0.01 (1 / 4 * 100)) ((1 - 1 / 4) * 2.3) = 43.125
    rw [lch_chroma, max_eq_right (by norm_num)]
    norm_num
  have hr : (luv_to_lch O9 (xyz_to_luv O9
      (adjust_y (blackBodyXyzSum O9 (250 + cell_t 2 0 * 6250)) 10))).c = 55 := by
    unfold luv_to_lch
    rw [if_neg (by simp only [triplet.h, O9]; norm_num)]
    simp only [triplet.c, O9]
  rw [hl, hr]
  norm_num

/-- C9 (amended): PLSequentialBlackBody integrates Planck's law over
360..830 nm in 5 nm steps against the tabulated 81-entry CIE 1931 CMF
(which is zero-extended outside 380..780 nm), rescales the integrated
XYZ to Y = 10 before the LUV/LCH conversion, and then overrides BOTH the
lightness (max(0.01, fract*100)) and the chroma
((1 - fract) * saturation * lightness) of each entry; the spectral
result supplies only the entry's hue. -/
theorem C9_black_body (O : MathOracle) (temperature rangeK saturation : ℚ)
    (n i : ℕ) (t : ℚ) :
    blackBodyLambdas = (List.range 95).map (fun k => 360 + 5 * k)
    ∧ cmf_xyz.length = 81
    ∧ (∀ lambda ∈ blackBodyLambdas, (lambda < 380 ∨ 780 < lambda) →
        color_matching_function lambda = ⟨0, 0, 0⟩)
    ∧ (blackBodyXyzSum O t).x = (blackBodyLambdas.map (fun (lambda : ℕ) =>
        ((5 * 1e-9 : ℚ) * (O.piO * plancks_law O t ((lambda : ℚ) * 1e-9)))
          * (color_matching_function lambda).x)).sum
    ∧ (blackBodyXyzSum O t).y = (blackBodyLambdas.map (fun (lambda : ℕ) =>
        ((5 * 1e-9 : ℚ) * (O.piO * plancks_law O t ((lambda : ℚ) * 1e-9)))
          * (color_matching_function lambda).y)).sum
    ∧ (blackBodyXyzSum O t).z = (blackBodyLambdas.map (fun (lambda : ℕ) =>
        ((5 * 1e-9 : ℚ) * (O.piO * plancks_law O t ((lambda : ℚ) * 1e-9)))
          * (color_matching_function lambda).z)).sum
    ∧ (∀ xyz : triplet, (adjust_y xyz 10).y = 10)
    ∧ plBlackBodyLch O temperature rangeK saturation n i
        = ⟨max 0.01 (cell_t n i * 100),
           ((1 - cell_t n i) * saturation) * max 0.01 (cell_t n i * 100),
           (luv_to_lch O (xyz_to_luv O (adjust_y
              (blackBodyXyzSum O (temperature + cell_t n i * rangeK)) 10))).h⟩ := by
  refine ⟨by decide, rfl, ?_, ?_, ?_, ?_, fun xyz => rfl, rfl⟩
  · intro lambda _ hout
    unfold color_matching_function
    rw [if_neg (by omega)]
  · have h := foldl_add_triplet_x (fun (lambda : ℕ) =>
      ((5 * 1e-9 : ℚ) * (O.piO * plancks_law O t ((lambda : ℚ) * 1e-9)))
        * color_matching_function lambda) blackBodyLambdas ⟨0, 0, 0⟩
    simp only [triplet.smul_x] at h
    calc (blackBodyXyzSum O t).x
        = (blackBodyLambdas.foldl (fun (xyz : triplet) (lambda : ℕ) => xyz +
            ((5 * 1e-9 : ℚ) * (O.piO * plancks_law O t ((lambda : ℚ) * 1e-9)))
              * color_matching_function lambda) ⟨0, 0, 0⟩).x := rfl
      _ = _ := by rw [h]; show (0 : ℚ) + _ = _; rw [zero_add]
  · have h := foldl_add_triplet_y (fun (lambda : ℕ) =>
      ((5 * 1e-9 : ℚ) * (O.piO * plancks_law O t ((lambda : ℚ) * 1e-9)))
        * color_matching_function lambda) blackBodyLambdas ⟨0, 0, 0⟩
    simp only [triplet.smul_y] at h
    calc (blackBodyXyzSum O t).y
        = (blackBodyLambdas.foldl (fun (xyz : triplet) (lambda : ℕ) => xyz +
            ((5 * 1e-9 : ℚ) * (O.piO * plancks_law O t ((lambda : ℚ) * 1e-9)))
              * color_matching_function lambda) ⟨0, 0, 0⟩).y := rfl
      _ = _ := by rw [h]; show (0 : ℚ) + _ = _; rw [zero_add]
  · have h := foldl_add_triplet_z (fun (lambda : ℕ) =>
      ((5 * 1e-9 : ℚ) * (O.piO * plancks_law O t ((lambda : ℚ) * 1e-9)))
        * color_matching_function lambda) blackBodyLambdas ⟨0, 0, 0⟩
    simp only [triplet.smul_z] at h
    calc (blackBodyXyzSum O t).z
        = (blackBodyLambdas.foldl (fun (xyz : triplet) (lambda : ℕ) => xyz +
            ((5 * 1e-9 : ℚ) * (O.piO * plancks_law O t ((lambda : ℚ) * 1e-9)))
              * color_matching_function lambda) ⟨0, 0, 0⟩).z := rfl
      _ = _ := by rw [h]; show (0 : ℚ) + _ = _; rw [zero_add]

/- Helper lemmas for the gamut boundary solver claim. -/

theorem clamp_mem (v : ℚ) : 0 ≤ clamp v 0 1 ∧ clamp v 0 1 ≤ 1 := by
  unfold clamp
  exact ⟨le_min (le_max_right v 0) (by norm_num), min_le_right _ _⟩

theorem rgb_to_srgb_helper_mem (O : MathOracle)
    (hpowE : ∀ x : ℚ, 0.0031308 < x → x ≤ 1 →
      9 / 100 ≤ O.powO x (1 / 2.4) ∧ O.powO x (1 / 2.4) ≤ 1)
    (x : ℚ) (h0 : 0 ≤ x) (h1 : x ≤ 1) :
    0 ≤ rgb_to_srgb_helper O x ∧ rgb_to_srgb_helper O x ≤ 1 := by
  unfold rgb_to_srgb_helper
  by_cases hc : x ≤ 0.0031308
  · rw [if_pos hc]
    constructor <;> nlinarith
  · rw [if_neg hc]
    push_neg at hc
    obtain ⟨hp1, hp2⟩ := hpowE x hc h1
    constructor <;> nlinarith

theorem srgb_to_rgb_helper_nonneg (O : MathOracle)
    (hpowPos : ∀ x : ℚ, 0 ≤ x → 0 ≤ O.powO x 2.4)
    (x : ℚ) (h0 : 0 ≤ x) : 0 ≤ srgb_to_rgb_helper O x := by
  unfold srgb_to_rgb_helper
  by_cases hc : x ≤ 0.04045
  · rw [if_pos hc]
    positivity
  · rw [if_neg hc]
    push_neg at hc
    exact hpowPos _ (by positivity)

theorem srgb_to_rgb_helper_zero (O : MathOracle) : srgb_to_rgb_helper O 0 = 0 := by
  unfold srgb_to_rgb_helper
  rw [if_pos (by norm_num)]
  norm_num

theorem srgb_to_rgb_helper_one (O : MathOracle) (hpow1 : O.powO 1 2.4 = 1) :
    srgb_to_rgb_helper O 1 = 1 := by
  unfold srgb_to_rgb_helper
  rw [if_neg (by norm_num), show ((1 : ℚ) + 0.055) / 1.055 = 1 by norm_num]
  exact hpow1

theorem rgb_sum_pos (r g bb : ℚ) (hr : 0 ≤ r) (hg : 0 ≤ g) (hb : 0 ≤ bb)
    (hone : r = 1 ∨ g = 1 ∨ bb = 1) :
    0 < (rgb_to_xyz ⟨r, g, bb⟩).x + 15 * (rgb_to_xyz ⟨r, g, bb⟩).y
        + 3 * (rgb_to_xyz ⟨r, g, bb⟩).z := by
  unfold rgb_to_xyz
  simp only [triplet.smul_x, triplet.smul_y, triplet.smul_z]
  dsimp only [triplet.r, triplet.g, triplet.b]
  rcases hone with h | h | h <;> subst h <;> nlinarith

theorem mss_sector_cases (O : MathOracle) (lch_hue : ℚ) :
    mss_sector O lch_hue = (2, 1, 0) ∨ mss_sector O lch_hue = (1, 2, 0)
    ∨ mss_sector O lch_hue = (0, 2, 1) ∨ mss_sector O lch_hue = (2, 0, 1)
    ∨ mss_sector O lch_hue = (1, 0, 2) ∨ mss_sector O lch_hue = (0, 1, 2) := by
  unfold mss_sector
  dsimp only
  split_ifs <;> simp

theorem mss_srgbFun_values (O : MathOracle) (lch_hue : ℚ)
    (hpowE : ∀ x : ℚ, 0.0031308 < x → x ≤ 1 →
      9 / 100 ≤ O.powO x (1 / 2.4) ∧ O.powO x (1 / 2.4) ≤ 1)
    (i j k : Fin 3) (hat : mss_sector O lch_hue = (i, j, k))
    (hij : i ≠ j) (hik : i ≠ k) (hjk : j ≠ k) :
    mss_srgbFun O lch_hue j = 0 ∧ mss_srgbFun O lch_hue k = 1
    ∧ 0 ≤ mss_srgbFun O lch_hue i ∧ mss_srgbFun O lch_hue i ≤ 1 := by
  unfold mss_srgbFun
  rw [hat]
  dsimp only
  unfold fin3upd
  refine ⟨?_, ?_, ?_, ?_⟩
  · rw [if_neg (Ne.symm hij), if_neg hjk, if_pos rfl]
  · rw [if_neg (Ne.symm hik), if_pos rfl]
  · rw [if_pos rfl]
    exact (rgb_to_srgb_helper_mem O hpowE _ (clamp_mem _).1 (clamp_mem _).2).1
  · rw [if_pos rfl]
    exact (rgb_to_srgb_helper_mem O hpowE _ (clamp_mem _).1 (clamp_mem _).2).2

theorem mss_pos_core (O : MathOracle)
    (hpow1 : O.powO 1 2.4 = 1)
    (hpowPos : ∀ x : ℚ, 0 ≤ x → 0 ≤ O.powO x 2.4)
    (f : Fin 3 → ℚ) (h0 : 0 ≤ f 0) (h1 : 0 ≤ f 1) (h2 : 0 ≤ f 2)
    (hone : f 0 = 1 ∨ f 1 = 1 ∨ f 2 = 1) :
    0 < (rgb_to_xyz (srgb_to_rgb O ⟨f 0, f 1, f 2⟩)).x
        + 15 * (rgb_to_xyz (srgb_to_rgb O ⟨f 0, f 1, f 2⟩)).y
        + 3 * (rgb_to_xyz (srgb_to_rgb O ⟨f 0, f 1, f 2⟩)).z := by
  have e : srgb_to_rgb O ⟨f 0, f 1, f 2⟩
      = ⟨srgb_to_rgb_helper O (f 0), srgb_to_rgb_helper O (f 1),
         srgb_to_rgb_helper O (f 2)⟩ := rfl
  rw [e]
  apply rgb_sum_pos
  · exact srgb_to_rgb_helper_nonneg O hpowPos _ h0
  · exact srgb_to_rgb_helper_nonneg O hpowPos _ h1
  · exact srgb_to_rgb_helper_nonneg O hpowPos _ h2
  · rcases hone with h | h | h
    · exact Or.inl (by rw [h]; exact srgb_to_rgb_helper_one O hpow1)
    · exact Or.inr (Or.inl (by rw [h]; exact srgb_to_rgb_helper_one O hpow1))
    · exact Or.inr (Or.inr (by rw [h]; exact srgb_to_rgb_helper_one O hpow1))

/-- C3: for every hue, the sRGB triple constructed inside
most_saturated_in_srgb lies on the surface of the sRGB unit cube - the
component with index j of the selected sector is exactly 0, the
component with index k is exactly 1, and the remaining component i is
the gamma encoding of the linear solve's result clamped to [0,1], hence
itself in [0,1]; the conversion back to LUV is division-safe (the
denominator of u_prime / v_prime on the resulting XYZ is positive), so
the returned LUV point is well defined.  The hypotheses are the analytic
facts used about std::pow: x^(1/2.4) lies in [0.09, 1] on (0.0031308,1],
1^2.4 = 1, and x^2.4 is non-negative for non-negative x. -/
theorem C3_most_saturated_in_srgb (O : MathOracle) (lch_hue : ℚ)
    (hpowE : ∀ x : ℚ, 0.0031308 < x → x ≤ 1 →
      9 / 100 ≤ O.powO x (1 / 2.4) ∧ O.powO x (1 / 2.4) ≤ 1)
    (hpow1 : O.powO 1 2.4 = 1)
    (hpowPos : ∀ x : ℚ, 0 ≤ x → 0 ≤ O.powO x 2.4) :
    (mss_sector O lch_hue).1 ≠ (mss_sector O lch_hue).2.1
    ∧ (mss_sector O lch_hue).1 ≠ (mss_sector O lch_hue).2.2
    ∧ (mss_sector O lch_hue).2.1 ≠ (mss_sector O lch_hue).2.2
    ∧ mss_srgbFun O lch_hue (mss_sector O lch_hue).2.1 = 0
    ∧ mss_srgbFun O lch_hue (mss_sector O lch_hue).2.2 = 1
    ∧ 0 ≤ mss_srgbFun O lch_hue (mss_sector O lch_hue).1
    ∧ mss_srgbFun O lch_hue (mss_sector O lch_hue).1 ≤ 1
    ∧ 0 < (rgb_to_xyz (srgb_to_rgb O ⟨mss_srgbFun O lch_hue 0, mss_srgbFun O lch_hue 1,
            mss_srgbFun O lch_hue 2⟩)).x
        + 15 * (rgb_to_xyz (srgb_to_rgb O ⟨mss_srgbFun O lch_hue 0, mss_srgbFun O lch_hue 1,
            mss_srgbFun O lch_hue 2⟩)).y
        + 3 * (rgb_to_xyz (srgb_to_rgb O ⟨mss_srgbFun O lch_hue 0, mss_srgbFun O lch_hue 1,
            mss_srgbFun O lch_hue 2⟩)).z
    ∧ most_saturated_in_srgb O lch_hue
        = xyz_to_luv O (rgb_to_xyz (srgb_to_rgb O ⟨mss_srgbFun O lch_hue 0,
            mss_srgbFun O lch_hue 1, mss_srgbFun O lch_hue 2⟩)) := by
  rcases mss_sector_cases O lch_hue with hat | hat | hat | hat | hat | hat
  · obtain ⟨hj0, hk1, hi0, hi1⟩ :=
      mss_srgbFun_values O lch_hue hpowE _ _ _ hat (by decide) (by decide) (by decide)
    rw [hat]
    dsimp only
    refine ⟨by decide, by decide, by decide, hj0, hk1, hi0, hi1, ?_, rfl⟩
    exact mss_pos_core O hpow1 hpowPos _
      (by simp [hk1]) (by simp [hj0]) hi0 (Or.inl hk1)
  · obtain ⟨hj0, hk1, hi0, hi1⟩ :=
      mss_srgbFun_values O lch_hue hpowE _ _ _ hat (by decide) (by decide) (by decide)
    rw [hat]
    dsimp only
    refine ⟨by decide, by decide, by decide, hj0, hk1, hi0, hi1, ?_, rfl⟩
    exact mss_pos_core O hpow1 hpowPos _
      (by simp [hk1]) hi0 (by simp [hj0]) (Or.inl hk1)
  · obtain ⟨hj0, hk1, hi0, hi1⟩ :=
      mss_srgbFun_values O lch_hue hpowE _ _ _ hat (by decide) (by decide) (by decide)
    rw [hat]
    dsimp only
    refine ⟨by decide, by decide, by decide, hj0, hk1, hi0, hi1, ?_, rfl⟩
    exact mss_pos_core O hpow1 hpowPos _
      hi0 (by simp [hk1]) (by simp [hj0]) (Or.inr (Or.inl hk1))
  · obtain ⟨hj0, hk1, hi0, hi1⟩ :=
      mss_srgbFun_values O lch_hue hpowE _ _ _ hat (by decide) (by decide) (by decide)
    rw [hat]
    dsimp only
    refine ⟨by decide, by decide, by decide, hj0, hk1, hi0, hi1, ?_, rfl⟩
    exact mss_pos_core O hpow1 hpowPos _
      (by simp [hj0]) (by simp [hk1]) hi0 (Or.inr (Or.inl hk1))
  · obtain ⟨hj0, hk1, hi0, hi1⟩ :=
      mss_srgbFun_values O lch_hue hpowE _ _ _ hat (by decide) (by decide) (by decide)
    rw [hat]
    dsimp only
    refine ⟨by decide, by decide, by decide, hj0, hk1, hi0, hi1, ?_, rfl⟩
    exact mss_pos_core O hpow1 hpowPos _
      (by simp [hj0]) hi0 (by simp [hk1]) (Or.inr (Or.inr hk1))
  · obtain ⟨hj0, hk1, hi0, hi1⟩ :=
      mss_srgbFun_values O lch_hue hpowE _ _ _ hat (by decide) (by decide) (by decide)
    rw [hat]
    dsimp only
    refine ⟨by decide, by decide, by decide, hj0, hk1, hi0, hi1, ?_, rfl⟩
    exact mss_pos_core O hpow1 hpowPos _
      hi0 (by simp [hj0]) (by simp [hk1]) (Or.inr (Or.inr hk1))

/-- The oracle of the C3 witness: pow is constantly 1 (which satisfies
all three analytic hypotheses), everything else is 0. -/
def O3 : MathOracle :=
  ⟨fun _ => 0, fun _ => 0, fun _ => 0, fun _ _ => 1, fun _ => 0, fun _ => 0,
   fun _ _ => 0, fun _ => 0, fun _ => 0, fun _ => 0, fun _ => 0, 0⟩

/-- C3 witness: the theorem applies at the concrete oracle O3 and the
concrete hue 1. -/
theorem C3_witness :
    (∀ x : ℚ, 0.0031308 < x → x ≤ 1 →
      9 / 100 ≤ O3.powO x (1 / 2.4) ∧ O3.powO x (1 / 2.4) ≤ 1)
    ∧ O3.powO 1 2.4 = 1
    ∧ (∀ x : ℚ, 0 ≤ x → 0 ≤ O3.powO x 2.4)
    ∧ (mss_srgbFun O3 1 (mss_sector O3 1).2.1 = 0
        ∧ mss_srgbFun O3 1 (mss_sector O3 1).2.2 = 1
        ∧ 0 ≤ mss_srgbFun O3 1 (mss_sector O3 1).1
        ∧ mss_srgbFun O3 1 (mss_sector O3 1).1 ≤ 1) :=
  have h1 : ∀ x : ℚ, 0.0031308 < x → x ≤ 1 →
      9 / 100 ≤ O3.powO x (1 / 2.4) ∧ O3.powO x (1 / 2.4) ≤ 1 := by
    intro x _ _
    constructor <;> norm_num [O3]
  have h2 : O3.powO 1 2.4 = 1 := rfl
  have h3 : ∀ x : ℚ, 0 ≤ x → 0 ≤ O3.powO x 2.4 := by
    intro x _
    norm_num [O3]
  have hmain := C3_most_saturated_in_srgb O3 1 h1 h2 h3
  ⟨h1, h2, h3, hmain.2.2.2.1, hmain.2.2.2.2.1, hmain.2.2.2.2.2.1, hmain.2.2.2.2.2.2.1⟩

/- Claim C1: clip-count semantics. -/

/-- All three channels of a pre-quantization sRGB triple lie in [0,1]. -/
def channelsIn01 (s : triplet) : Prop :=
  0 ≤ s.x ∧ s.x ≤ 1 ∧ 0 ≤ s.y ∧ s.y ≤ 1 ∧ 0 ≤ s.z ∧ s.z ≤ 1

instance (s : triplet) : Decidable (channelsIn01 s) := by
  unfold channelsIn01
  infer_instance

/-- The clip flag of one channel holds exactly when round(255 x) falls
outside [0,255] (std::round rounds half away from zero). -/
theorem float_to_uchar_flag_iff (x : ℚ) :
    (float_to_uchar x).2 = true ↔ cround (x * 255) < 0 ∨ 255 < cround (x * 255) := by
  unfold float_to_uchar
  dsimp only
  split_ifs with h1 h2
  · simpa using Or.inl h1
  · simpa using Or.inr h2
  · simp [h1, h2]

/-- The per-entry clip flag holds exactly when some channel rounds
outside [0,255]. -/
theorem srgb_quantize_flag_iff (s : triplet) :
    (srgb_quantize s).2 = true
      ↔ cround (s.r * 255) < 0 ∨ 255 < cround (s.r * 255)
        ∨ cround (s.g * 255) < 0 ∨ 255 < cround (s.g * 255)
        ∨ cround (s.b * 255) < 0 ∨ 255 < cround (s.b * 255) := by
  unfold srgb_quantize
  dsimp only
  rw [Bool.or_eq_true, Bool.or_eq_true, float_to_uchar_flag_iff, float_to_uchar_flag_iff,
    float_to_uchar_flag_iff]
  tauto

/-- The oracle of the C1 counterexample: cos = 1, sin = 0 and
pow x gamma = x; these agree with the true library functions at the
points the counterexample run samples them (gamma = 1, and angles that
are whole multiples of 2 pi when rot = 4 and hue = 0). -/
def O1 : MathOracle :=
  ⟨fun _ => 0, fun _ => 1, fun _ => 0, fun x _ => x, fun _ => 0, fun _ => 0,
   fun _ _ => 0, fun _ => 0, fun _ => 0, fun _ => 0, fun _ => 0, 0⟩

/-- C1 counterexample: CubeHelix with n = 2, hue = 0, rot = 4,
saturation = 401600/295941, gamma = 1 returns clip count 0, yet exactly
one of its two pre-quantization sRGB triples has a channel outside
[0,1] (entry 1's blue channel is exactly 1.001, which still rounds to
byte 255 without clamping).  So the returned count is not the number of
entries with a channel outside [0,1]. -/
theorem C1_counterexample :
    (CubeHelix O1 2 0 (fun _ => 0) 0 4 (401600 / 295941) 1).2 = 0
    ∧ ((Finset.range 2).filter (fun i =>
        ¬ channelsIn01 (cubeHelixSrgb O1 0 4 (401600 / 295941) 1 2 i))).card = 1 := by
  have hin0 : channelsIn01 (cubeHelixSrgb O1 0 4 (401600 / 295941) 1 2 0) := by
    unfold channelsIn01 cubeHelixSrgb cubeHelixSrgbAt cell_t twopi O1
    norm_num
  have hout1 : ¬ channelsIn01 (cubeHelixSrgb O1 0 4 (401600 / 295941) 1 2 1) := by
    unfold channelsIn01 cubeHelixSrgb cubeHelixSrgbAt cell_t twopi O1
    norm_num
  have hf0 : (srgb_quantize (cubeHelixSrgb O1 0 4 (401600 / 295941) 1 2 0)).2 = false := by
    unfold srgb_quantize float_to_uchar cround cubeHelixSrgb cubeHelixSrgbAt cell_t twopi O1
    norm_num [triplet.r, triplet.g, triplet.b]
  have hf1 : (srgb_quantize (cubeHelixSrgb O1 0 4 (401600 / 295941) 1 2 1)).2 = false := by
    unfold srgb_quantize float_to_uchar cround cubeHelixSrgb cubeHelixSrgbAt cell_t twopi O1
    norm_num [triplet.r, triplet.g, triplet.b]
  constructor
  · show (runDriver (cubeHelixSrgb O1 0 4 (401600 / 295941) 1 2) 2 0 (fun _ => 0)).2 = 0
    rw [runDriver_count]
    rw [Finset.card_eq_zero, Finset.filter_eq_empty_iff]
    intro i hi
    rw [Finset.mem_range] at hi
    rcases (by omega : i = 0 ∨ i = 1) with h | h <;> subst h <;> simp [hf0, hf1]
  · rw [Finset.range_succ, Finset.range_one, Finset.filter_insert, if_pos hout1,
      Finset.filter_singleton, if_neg (by simpa using hin0)]
    simp

/-- One entry is clipped when the clip flag of its quantization is set. -/
def driverOk (result : Buf × ℕ) (f : ℕ → triplet) (n off : ℕ) : Prop :=
  result.2 = ((Finset.range n).filter (fun i => (srgb_quantize (f i)).2 = true)).card
  ∧ result.2 ≤ n
  ∧ ∀ p, off ≤ p → p < off + 3 * n → result.1 p = entryByte f off p

/-- C1 (amended): for every palette driver and every n, the returned
integer equals the number of output entries whose pre-quantization sRGB
triple has a channel x with round(255 x) outside [0,255] (each entry
contributes at most 1 however many channels are out of range - the
count is a cardinality of entry indices - and the count never exceeds
n); generation always completes, writing for every one of the 3n output
bytes the quantization of its entry's pre-quantization triple.  The
first conjunct identifies the per-entry clip flag with the per-channel
rounding condition; for the two diverging drivers the pre-quantization
triple of an output entry is the one of the sequential sub-call that
produced it (plDivLightnessSrgb / plDivSaturationSrgb). -/
theorem C1_clip_count (O : MathOracle) (n off : ℕ) (buf : Buf)
    (hue divergence contrast saturation brightness warmth lightness lightness_range
      saturation_range rotations temperature rangeK gamma periods rot lightnessRange
      saturationRange l0 s0 l1 s1 s05 : ℚ)
    (hues sr0 sg0 sb0 sr1 sg1 sb1 : ℕ) (hue_values hue_positions : ℕ → ℚ) :
    (∀ s : triplet, (srgb_quantize s).2 = true
      ↔ cround (s.r * 255) < 0 ∨ 255 < cround (s.r * 255)
        ∨ cround (s.g * 255) < 0 ∨ 255 < cround (s.g * 255)
        ∨ cround (s.b * 255) < 0 ∨ 255 < cround (s.b * 255))
    ∧ driverOk (BrewerSequential O n off buf hue contrast saturation brightness warmth)
        (brewerSeqSrgb O hue contrast saturation brightness warmth n) n off
    ∧ driverOk (BrewerDiverging O n off buf hue divergence contrast saturation brightness warmth)
        (brewerDivSrgb O hue divergence contrast saturation brightness warmth n) n off
    ∧ driverOk (BrewerQualitative O n off buf hue divergence contrast saturation brightness)
        (brewerQualSrgb O hue divergence contrast saturation brightness n) n off
    ∧ driverOk (PLSequentialLightness O n off buf lightness_range saturation hue)
        (plSeqLightnessSrgb O lightness_range saturation hue n) n off
    ∧ driverOk (PLSequentialSaturation O n off buf saturation_range lightness saturation hue)
        (plSeqSaturationSrgb O saturation_range lightness saturation hue n) n off
    ∧ driverOk (PLSequentialRainbow O n off buf lightness_range hue rotations saturation)
        (plSeqRainbowSrgb O lightness_range hue rotations saturation n) n off
    ∧ driverOk (PLSequentialBlackBody O n off buf temperature rangeK saturation)
        (plBlackBodySrgb O temperature rangeK saturation n) n off
    ∧ driverOk (PLSequentialMultiHue O n off buf hues hue_values hue_positions l0 s0 l1 s1 s05)
        (plSeqMultiHueSrgb O hues hue_values hue_positions l0 s0 l1 s1 s05 n) n off
    ∧ driverOk (PLQualitativeHue O n off buf hue divergence lightness saturation)
        (plQualHueSrgb O hue divergence lightness saturation n) n off
    ∧ driverOk (CubeHelix O n off buf hue rot saturation gamma)
        (cubeHelixSrgb O hue rot saturation gamma n) n off
    ∧ driverOk (Moreland O n off buf sr0 sg0 sb0 sr1 sg1 sb1)
        (morelandSrgb O sr0 sg0 sb0 sr1 sg1 sb1 n) n off
    ∧ driverOk (McNames O n off buf periods) (mcNamesSrgb O periods n) n off
    ∧ driverOk (PLDivergingLightness O n off buf lightnessRange saturation hue divergence)
        (plDivLightnessSrgb O lightnessRange saturation hue divergence n) n off
    ∧ driverOk (PLDivergingSaturation O n off buf saturationRange lightness saturation hue
          divergence)
        (plDivSaturationSrgb O saturationRange lightness saturation hue divergence n) n off := by
  refine ⟨srgb_quantize_flag_iff, ?_, ?_, ?_, ?_, ?_, ?_, ?_, ?_, ?_, ?_, ?_, ?_, ?_, ?_⟩
  case _ => exact ⟨runDriver_count _ _ _ _, runDriver_count_le _ _ _ _,
    fun p h1 h2 => runDriver_in _ _ _ _ _ h1 h2⟩
  case _ => exact ⟨runDriver_count _ _ _ _, runDriver_count_le _ _ _ _,
    fun p h1 h2 => runDriver_in _ _ _ _ _ h1 h2⟩
  case _ => exact ⟨runDriver_count _ _ _ _, runDriver_count_le _ _ _ _,
    fun p h1 h2 => runDriver_in _ _ _ _ _ h1 h2⟩
  case _ => exact ⟨runDriver_count _ _ _ _, runDriver_count_le _ _ _ _,
    fun p h1 h2 => runDriver_in _ _ _ _ _ h1 h2⟩
  case _ => exact ⟨runDriver_count _ _ _ _, runDriver_count_le _ _ _ _,
    fun p h1 h2 => runDriver_in _ _ _ _ _ h1 h2⟩
  case _ => exact ⟨runDriver_count _ _ _ _, runDriver_count_le _ _ _ _,
    fun p h1 h2 => runDriver_in _ _ _ _ _ h1 h2⟩
  case _ => exact ⟨runDriver_count _ _ _ _, runDriver_count_le _ _ _ _,
    fun p h1 h2 => runDriver_in _ _ _ _ _ h1 h2⟩
  case _ => exact ⟨runDriver_count _ _ _ _, runDriver_count_le _ _ _ _,
    fun p h1 h2 => runDriver_in _ _ _ _ _ h1 h2⟩
  case _ => exact ⟨runDriver_count _ _ _ _, runDriver_count_le _ _ _ _,
    fun p h1 h2 => runDriver_in _ _ _ _ _ h1 h2⟩
  case _ => exact ⟨runDriver_count _ _ _ _, runDriver_count_le _ _ _ _,
    fun p h1 h2 => runDriver_in _ _ _ _ _ h1 h2⟩
  case _ => exact ⟨runDriver_count _ _ _ _, runDriver_count_le _ _ _ _,
    fun p h1 h2 => runDriver_in _ _ _ _ _ h1 h2⟩
  case _ => exact ⟨runDriver_count _ _ _ _, runDriver_count_le _ _ _ _,
    fun p h1 h2 => runDriver_in _ _ _ _ _ h1 h2⟩
  case _ =>
    refine ⟨PLDivergingLightness_count O n off buf lightnessRange saturation hue divergence,
      ?_, fun p h1 h2 => PLDivergingLightness_buf O n off buf lightnessRange saturation hue
        divergence p h1 h2⟩
    rw [PLDivergingLightness_count]
    exact le_trans (Finset.card_filter_le _ _) (le_of_eq (Finset.card_range n))
  case _ =>
    refine ⟨PLDivergingSaturation_count O n off buf saturationRange lightness saturation hue
        divergence,
      ?_, fun p h1 h2 => PLDivergingSaturation_buf O n off buf saturationRange lightness
        saturation hue divergence p h1 h2⟩
    rw [PLDivergingSaturation_count]
    exact le_trans (Finset.card_filter_le _ _) (le_of_eq (Finset.card_range n))

/- Claim C10: frame conditions of the drivers. -/

/-- The frame contract of one driver run with n entries at byte base
off: bytes outside [off, off + 3n) are untouched; the bytes written
inside, and the returned clip count, do not depend on the initial buffer
contents (no driver reads bytes it did not itself write during the
call); every written byte is at most 255. -/
def driverFrame (run : Buf → Buf × ℕ) (n off : ℕ) : Prop :=
  (∀ buf p, (p < off ∨ off + 3 * n ≤ p) → (run buf).1 p = buf p)
  ∧ (∀ buf1 buf2 p, off ≤ p → p < off + 3 * n → (run buf1).1 p = (run buf2).1 p)
  ∧ (∀ buf1 buf2, (run buf1).2 = (run buf2).2)
  ∧ (∀ buf p, off ≤ p → p < off + 3 * n → (run buf).1 p ≤ 255)

/-- C10: every palette driver, called with n entries and pointer base
off, writes only bytes off..off+3n-1, assigns every one of those bytes a
value at most 255, and neither the written bytes nor the returned clip
count depend on the buffer's prior contents - the diverging PL drivers
only read back bytes written earlier in the same call (their output is
captured by the buffer-independent plDivLightnessSrgb /
plDivSaturationSrgb entry functions). -/
theorem C10_driver_frames (O : MathOracle) (n off : ℕ)
    (hue divergence contrast saturation brightness warmth lightness lightness_range
      saturation_range rotations temperature rangeK gamma periods rot lightnessRange
      saturationRange l0 s0 l1 s1 s05 : ℚ)
    (hues sr0 sg0 sb0 sr1 sg1 sb1 : ℕ) (hue_values hue_positions : ℕ → ℚ)
    (_hn : 2 ≤ n) :
    driverFrame (fun buf => BrewerSequential O n off buf hue contrast saturation brightness
      warmth) n off
    ∧ driverFrame (fun buf => BrewerDiverging O n off buf hue divergence contrast saturation
      brightness warmth) n off
    ∧ driverFrame (fun buf => BrewerQualitative O n off buf hue divergence contrast saturation
      brightness) n off
    ∧ driverFrame (fun buf => PLSequentialLightness O n off buf lightness_range saturation hue)
        n off
    ∧ driverFrame (fun buf => PLSequentialSaturation O n off buf saturation_range lightness
      saturation hue) n off
    ∧ driverFrame (fun buf => PLSequentialRainbow O n off buf lightness_range hue rotations
      saturation) n off
    ∧ driverFrame (fun buf => PLSequentialBlackBody O n off buf temperature rangeK saturation)
        n off
    ∧ driverFrame (fun buf => PLSequentialMultiHue O n off buf hues hue_values hue_positions
      l0 s0 l1 s1 s05) n off
    ∧ driverFrame (fun buf => PLQualitativeHue O n off buf hue divergence lightness saturation)
        n off
    ∧ driverFrame (fun buf => CubeHelix O n off buf hue rot saturation gamma) n off
    ∧ driverFrame (fun buf => Moreland O n off buf sr0 sg0 sb0 sr1 sg1 sb1) n off
    ∧ driverFrame (fun buf => McNames O n off buf periods) n off
    ∧ driverFrame (fun buf => PLDivergingLightness O n off buf lightnessRange saturation hue
      divergence) n off
    ∧ driverFrame (fun buf => PLDivergingSaturation O n off buf saturationRange lightness
      saturation hue divergence) n off := by
  refine ⟨⟨fun buf p hp => runDriver_frame _ _ _ buf p hp,
    fun b1 b2 p h1 h2 => runDriver_indep _ _ _ b1 b2 p h1 h2,
    fun b1 b2 => (runDriver_count _ _ _ b1).trans (runDriver_count _ _ _ b2).symm,
    fun buf p h1 h2 => runDriver_bound _ _ _ buf p h1 h2⟩, ⟨fun buf p hp => runDriver_frame _ _ _ buf p hp,
    fun b1 b2 p h1 h2 => runDriver_indep _ _ _ b1 b2 p h1 h2,
    fun b1 b2 => (runDriver_count _ _ _ b1).trans (runDriver_count _ _ _ b2).symm,
    fun buf p h1 h2 => runDriver_bound _ _ _ buf p h1 h2⟩, ⟨fun buf p hp => runDriver_frame _ _ _ buf p hp,
    fun b1 b2 p h1 h2 => runDriver_indep _ _ _ b1 b2 p h1 h2,
    fun b1 b2 => (runDriver_count _ _ _ b1).trans (runDriver_count _ _ _ b2).symm,
    fun buf p h1 h2 => runDriver_bound _ _ _ buf p h1 h2⟩, ⟨fun buf p hp => runDriver_frame _ _ _ buf p hp,
    fun b1 b2 p h1 h2 => runDriver_indep _ _ _ b1 b2 p h1 h2,
    fun b1 b2 => (runDriver_count _ _ _ b1).trans (runDriver_count _ _ _ b2).symm,
    fun buf p h1 h2 => runDriver_bound _ _ _ buf p h1 h2⟩, ⟨fun buf p hp => runDriver_frame _ _ _ buf p hp,
    fun b1 b2 p h1 h2 => runDriver_indep _ _ _ b1 b2 p h1 h2,
    fun b1 b2 => (runDriver_count _ _ _ b1).trans (runDriver_count _ _ _ b2).symm,
    fun buf p h1 h2 => runDriver_bound _ _ _ buf p h1 h2⟩, ⟨fun buf p hp => runDriver_frame _ _ _ buf p hp,
    fun b1 b2 p h1 h2 => runDriver_indep _ _ _ b1 b2 p h1 h2,
    fun b1 b2 => (runDriver_count _ _ _ b1).trans (runDriver_count _ _ _ b2).symm,
    fun buf p h1 h2 => runDriver_bound _ _ _ buf p h1 h2⟩, ⟨fun buf p hp => runDriver_frame _ _ _ buf p hp,
    fun b1 b2 p h1 h2 => runDriver_indep _ _ _ b1 b2 p h1 h2,
    fun b1 b2 => (runDriver_count _ _ _ b1).trans (runDriver_count _ _ _ b2).symm,
    fun buf p h1 h2 => runDriver_bound _ _ _ buf p h1 h2⟩, ⟨fun buf p hp => runDriver_frame _ _ _ buf p hp,
    fun b1 b2 p h1 h2 => runDriver_indep _ _ _ b1 b2 p h1 h2,
    fun b1 b2 => (runDriver_count _ _ _ b1).trans (runDriver_count _ _ _ b2).symm,
    fun buf p h1 h2 => runDriver_bound _ _ _ buf p h1 h2⟩, ⟨fun buf p hp => runDriver_frame _ _ _ buf p hp,
    fun b1 b2 p h1 h2 => runDriver_indep _ _ _ b1 b2 p h1 h2,
    fun b1 b2 => (runDriver_count _ _ _ b1).trans (runDriver_count _ _ _ b2).symm,
    fun buf p h1 h2 => runDriver_bound _ _ _ buf p h1 h2⟩, ⟨fun buf p hp => runDriver_frame _ _ _ buf p hp,
    fun b1 b2 p h1 h2 => runDriver_indep _ _ _ b1 b2 p h1 h2,
    fun b1 b2 => (runDriver_count _ _ _ b1).trans (runDriver_count _ _ _ b2).symm,
    fun buf p h1 h2 => runDriver_bound _ _ _ buf p h1 h2⟩,
    ⟨fun buf p hp => runDriver_frame _ _ _ buf p hp,
    fun b1 b2 p h1 h2 => runDriver_indep _ _ _ b1 b2 p h1 h2,
    fun b1 b2 => (runDriver_count _ _ _ b1).trans (runDriver_count _ _ _ b2).symm,
    fun buf p h1 h2 => runDriver_bound _ _ _ buf p h1 h2⟩, ⟨fun buf p hp => runDriver_frame _ _ _ buf p hp,
    fun b1 b2 p h1 h2 => runDriver_indep _ _ _ b1 b2 p h1 h2,
    fun b1 b2 => (runDriver_count _ _ _ b1).trans (runDriver_count _ _ _ b2).symm,
    fun buf p h1 h2 => runDriver_bound _ _ _ buf p h1 h2⟩, ?_, ?_⟩
  · exact ⟨fun buf p hp => PLDivergingLightness_frame O n off buf lightnessRange saturation hue
        divergence p hp,
      fun b1 b2 p h1 h2 => by
        rw [PLDivergingLightness_buf O n off b1 lightnessRange saturation hue divergence p h1 h2,
          PLDivergingLightness_buf O n off b2 lightnessRange saturation hue divergence p h1 h2],
      fun b1 b2 => (PLDivergingLightness_count O n off b1 lightnessRange saturation hue
          divergence).trans
        (PLDivergingLightness_count O n off b2 lightnessRange saturation hue divergence).symm,
      fun buf p h1 h2 => by
        rw [PLDivergingLightness_buf O n off buf lightnessRange saturation hue divergence p h1 h2]
        exact entryByte_le _ _ _⟩
  · exact ⟨fun buf p hp => PLDivergingSaturation_frame O n off buf saturationRange lightness
        saturation hue divergence p hp,
      fun b1 b2 p h1 h2 => by
        rw [PLDivergingSaturation_buf O n off b1 saturationRange lightness saturation hue
            divergence p h1 h2,
          PLDivergingSaturation_buf O n off b2 saturationRange lightness saturation hue
            divergence p h1 h2],
      fun b1 b2 => (PLDivergingSaturation_count O n off b1 saturationRange lightness saturation
          hue divergence).trans
        (PLDivergingSaturation_count O n off b2 saturationRange lightness saturation hue
          divergence).symm,
      fun buf p h1 h2 => by
        rw [PLDivergingSaturation_buf O n off buf saturationRange lightness saturation hue
          divergence p h1 h2]
        exact entryByte_le _ _ _⟩

/-- C10 witness: the theorem applies at n = 2, off = 0, the zero oracle
and zero parameters; the n >= 2 hypothesis is discharged concretely. -/
theorem C10_witness :
    2 ≤ 2
    ∧ driverFrame (fun buf => BrewerSequential Ozero 2 0 buf 0 0 0 0 0) 2 0
    ∧ driverFrame (fun buf => PLDivergingLightness Ozero 2 0 buf 0 0 0 0) 2 0 :=
  have h := C10_driver_frames Ozero 2 0 0 0 0 0 0 0 0 0 0 0 0 0 0 0 0 0 0 0 0 0 0 0 0 0 0 0 0 0 0
    (fun _ => 0) (fun _ => 0) (by norm_num)
  ⟨by norm_num, h.1, h.2.2.2.2.2.2.2.2.2.2.2.2.1⟩

/- Claim C6: mirror symmetry of BrewerDiverging lightness. -/

/-- The inversion of the scalar quadratic Bezier at value v is exact:
the radicand is non-negative (so the source's clamp is inactive), the
square-root oracle returns an exact root there, and the denominator is
nonzero. -/
def inv_b_exact (O : MathOracle) (b0 b1 b2 v : ℚ) : Prop :=
  0 ≤ b1 * b1 - b0 * b2 + (b0 - 2 * b1 + b2) * v
  ∧ O.sqrtO (b1 * b1 - b0 * b2 + (b0 - 2 * b1 + b2) * v)
      * O.sqrtO (b1 * b1 - b0 * b2 + (b0 - 2 * b1 + b2) * v)
      = b1 * b1 - b0 * b2 + (b0 - 2 * b1 + b2) * v
  ∧ b0 - 2 * b1 + b2 ≠ 0

/-- Well-posedness of one colormap entry evaluation: the lightness
inversion used on the selected segment is exact and the recovered Bezier
parameter falls in the segment the source then evaluates. -/
def entry_wellposed (O : MathOracle) (t : ℚ) (p0 p2 q0 q1 q2 : triplet)
    (contrast brightness : ℚ) : Prop :=
  if ramp_l O t contrast brightness ≤ q1.l then
    inv_b_exact O p0.l q0.l q1.l (ramp_l O t contrast brightness)
    ∧ inv_b O p0.l q0.l q1.l (ramp_l O t contrast brightness) ≤ 1
  else
    inv_b_exact O q1.l q2.l p2.l (ramp_l O t contrast brightness)
    ∧ 0 < inv_b O q1.l q2.l p2.l (ramp_l O t contrast brightness)

theorem bScalar_inv (O : MathOracle) (b0 b1 b2 v : ℚ) (h : inv_b_exact O b0 b1 b2 v) :
    bScalar b0 b1 b2 (inv_b O b0 b1 b2 v) = v := by
  obtain ⟨hd, hs, hA⟩ := h
  unfold bScalar inv_b
  rw [max_eq_left hd]
  field_simp
  linear_combination (b0 - 2 * b1 + b2) * hs

theorem b_l (b0 b1 b2 : triplet) (t : ℚ) : (b b0 b1 b2 t).l = bScalar b0.l b1.l b2.l t := by
  unfold b bScalar
  simp only [triplet.l, triplet.add_x, triplet.smul_x]

/-- Under well-posedness, the lightness of a colormap entry equals the
requested ramp lightness: the Bezier inversion is exact. -/
theorem entry_l (O : MathOracle) (t : ℚ) (p0 p2 q0 q1 q2 : triplet) (cb bb : ℚ)
    (h : entry_wellposed O t p0 p2 q0 q1 q2 cb bb) :
    (get_colormap_entry O t p0 p2 q0 q1 q2 cb bb).l = ramp_l O t cb bb := by
  unfold entry_wellposed at h
  unfold get_colormap_entry
  dsimp only
  by_cases hbr : ramp_l O t cb bb ≤ q1.l
  · rw [if_pos hbr] at h ⊢
    obtain ⟨hex, hle⟩ := h
    rw [if_pos (by linarith :
      (0.5 : ℚ) * inv_b O p0.l q0.l q1.l (ramp_l O t cb bb) ≤ 0.5)]
    rw [b_l, show (2 : ℚ) * (0.5 * inv_b O p0.l q0.l q1.l (ramp_l O t cb bb))
        = inv_b O p0.l q0.l q1.l (ramp_l O t cb bb) by ring]
    exact bScalar_inv O _ _ _ _ hex
  · rw [if_neg hbr] at h ⊢
    obtain ⟨hex, hpos⟩ := h
    rw [if_neg (by linarith :
      ¬((0.5 : ℚ) * inv_b O q1.l q2.l p2.l (ramp_l O t cb bb) + 0.5 ≤ 0.5))]
    rw [b_l, show (2 : ℚ) * (0.5 * inv_b O q1.l q2.l p2.l (ramp_l O t cb bb) + 0.5 - 0.5)
        = inv_b O q1.l q2.l p2.l (ramp_l O t cb bb) by ring]
    exact bScalar_inv O _ _ _ _ hex

/-- Well-posedness of BrewerDiverging entry i: the middle entry (odd n)
needs nothing; the other entries need the lightness inversion on their
side's point set to be exact. -/
def bdEntryOK (O : MathOracle) (n : ℕ)
    (hue divergence contrast saturation brightness warmth : ℚ) (i : ℕ) : Prop :=
  let pb := get_bright_point O
  let pb_lch := luv_to_lch O pb
  let pbs := lch_saturation pb_lch.l pb_lch.c
  let cpa := get_color_points O hue saturation warmth pb pb_lch.h pbs
  let cpb := get_color_points O (brewerDivHue1 O hue divergence) saturation warmth pb
    pb_lch.h pbs
  if n % 2 = 1 ∧ i = n / 2 then True
  else if i < n / 2 then
    entry_wellposed O (2 * cell_t n i) cpa.p0 cpa.p2 cpa.q0 cpa.q1 cpa.q2 contrast brightness
  else
    entry_wellposed O (2 * (1 - cell_t n i)) cpb.p0 cpb.p2 cpb.q0 cpb.q1 cpb.q2 contrast
      brightness

/-- C6: for mirrored indices i and n-1-i, the pre-quantization LUV
colors of BrewerDiverging have identical lightness: both sides request
the same ramp lightness (the mirrored cell-centered positions give equal
folded parameters 2t and 2(1-t)), and under well-posedness of the two
lightness inversions each entry's lightness equals the requested one. -/
theorem C6_brewer_diverging_mirror (O : MathOracle) (n : ℕ)
    (hue divergence contrast saturation brightness warmth : ℚ) (i : ℕ)
    (hn : 2 ≤ n) (hi : i < n)
    (h1 : bdEntryOK O n hue divergence contrast saturation brightness warmth i)
    (h2 : bdEntryOK O n hue divergence contrast saturation brightness warmth (n - 1 - i)) :
    (brewerDivLuv O hue divergence contrast saturation brightness warmth n i).l
      = (brewerDivLuv O hue divergence contrast saturation brightness warmth n (n - 1 - i)).l
    := by
  have hnq : (n : ℚ) ≠ 0 := Nat.cast_ne_zero.2 (by omega)
  by_cases hmid : n % 2 = 1 ∧ i = n / 2
  · rw [show n - 1 - i = i by omega]
  · by_cases hlt : i < n / 2
    · have hjmid : ¬(n % 2 = 1 ∧ n - 1 - i = n / 2) := by omega
      have hjlt : ¬(n - 1 - i < n / 2) := by omega
      unfold bdEntryOK at h1 h2
      dsimp only at h1 h2
      rw [if_neg hmid, if_pos hlt] at h1
      rw [if_neg hjmid, if_neg hjlt] at h2
      simp only [brewerDivLuv]
      rw [if_neg hmid, if_neg hjmid, if_pos hlt, if_neg hjlt]
      rw [entry_l O _ _ _ _ _ _ _ _ h1, entry_l O _ _ _ _ _ _ _ _ h2]
      rw [show (2 : ℚ) * cell_t n i = 2 * (1 - cell_t n (n - 1 - i)) by
        unfold cell_t
        rw [Nat.cast_sub (by omega), Nat.cast_sub (by omega)]
        push_cast
        field_simp
        ring]
    · have hjmid : ¬(n % 2 = 1 ∧ n - 1 - i = n / 2) := by omega
      have hjlt : n - 1 - i < n / 2 := by omega
      unfold bdEntryOK at h1 h2
      dsimp only at h1 h2
      rw [if_neg hmid, if_neg hlt] at h1
      rw [if_neg hjmid, if_pos hjlt] at h2
      simp only [brewerDivLuv]
      rw [if_neg hmid, if_neg hjmid, if_neg hlt, if_pos hjlt]
      rw [entry_l O _ _ _ _ _ _ _ _ h1, entry_l O _ _ _ _ _ _ _ _ h2]
      rw [show (2 : ℚ) * (1 - cell_t n i) = 2 * cell_t n (n - 1 - i) by
        unfold cell_t
        rw [Nat.cast_sub (by omega), Nat.cast_sub (by omega)]
        push_cast
        field_simp
        ring]

/-- C6 witness: the mirror-lightness theorem applies at the oracle O3
with n = 2, hue = 1 and all other parameters 0; there both entries are
well-posed (the discriminants are 0 and the denominators 50). -/
theorem C6_witness :
    (brewerDivLuv O3 1 0 0 0 0 0 2 0).l = (brewerDivLuv O3 1 0 0 0 0 0 2 (2 - 1 - 0)).l :=
  C6_brewer_diverging_mirror O3 2 1 0 0 0 0 0 0 (by norm_num) (by norm_num)
    (by
      unfold bdEntryOK
      dsimp only
      rw [if_neg (by decide), if_pos (by decide)]
      unfold entry_wellposed inv_b_exact inv_b ramp_l cell_t get_color_points lch_to_luv
      dsimp only
      simp only [triplet.l, triplet.c, triplet.h, triplet.add_x, triplet.smul_x, O3]
      norm_num)
    (by
      show bdEntryOK O3 2 1 0 0 0 0 0 1
      unfold bdEntryOK
      dsimp only
      rw [if_neg (by decide), if_neg (by decide)]
      unfold entry_wellposed inv_b_exact inv_b ramp_l cell_t get_color_points lch_to_luv
      dsimp only
      simp only [triplet.l, triplet.c, triplet.h, triplet.add_x, triplet.smul_x, O3]
      norm_num)

/- Claim C4: the Moreland endpoints. -/

/-- A concrete oracle for the Moreland counterexample.  pow is the
identity, both endpoint colors get MSH radius 90 and saturation 1, and
atan2 separates the two endpoint hues by the test 50 < a, which agrees
with the sign structure of the actual lab a components of (180,4,38)
(about 91) and (59,76,192) (about 18). -/
def O4 : MathOracle :=
  ⟨fun _ => 0, fun _ => 0, fun _ => 90, fun x _ => x, fun x => x, fun _ => 0,
   fun _ x => if 50 < x then 0 else 2, fun _ => 1, fun _ => 0, fun _ => 0, fun _ => 0, 3⟩

theorem O4_omsh0 : morelandOmsh O4 180 4 38 = ⟨90, 1, 0⟩ := by
  simp only [morelandOmsh, lab_to_msh, xyz_to_lab, lab_f, rgb_to_xyz, srgb_to_rgb,
    srgb_to_rgb_helper, uchar_to_float, d65_xyz, O4, triplet.l, triplet.a, triplet.b,
    triplet.r, triplet.g, triplet.mk.injEq]
  norm_num

theorem O4_omsh1 : morelandOmsh O4 59 76 192 = ⟨90, 1, 2⟩ := by
  simp only [morelandOmsh, lab_to_msh, xyz_to_lab, lab_f, rgb_to_xyz, srgb_to_rgb,
    srgb_to_rgb_helper, uchar_to_float, d65_xyz, O4, triplet.l, triplet.a, triplet.b,
    triplet.r, triplet.g, triplet.mk.injEq]
  norm_num

theorem O4_pw : morelandPlaceWhite O4 (⟨90, 1, 0⟩ : triplet) (⟨90, 1, 2⟩ : triplet) := by
  unfold morelandPlaceWhite hue_diff twopi
  norm_num [O4, triplet.s, triplet.h]

theorem O4_place_white :
    morelandPlaceWhite O4 (morelandOmsh O4 180 4 38) (morelandOmsh O4 59 76 192) := by
  rw [O4_omsh0, O4_omsh1]; exact O4_pw

theorem O4_entry0 : morelandMsh O4 180 4 38 59 76 192 3 0 = ⟨90, 2 / 3, 0⟩ := by
  unfold morelandMsh morelandMshAt
  dsimp only
  rw [O4_omsh0, O4_omsh1]
  rw [if_pos O4_pw]
  rw [if_pos (show cell_t 3 0 < 0.5 by norm_num [cell_t])]
  dsimp only [triplet.s, triplet.m, triplet.h]
  norm_num [adjust_hue, cell_t, max_def, O4, triplet.s, triplet.m, triplet.h]
  refine triplet.eq_of_components _ _ ?_ ?_ ?_ <;> norm_num

theorem O4_srgb0 : morelandSrgb O4 180 4 38 59 76 192 3 0 = ⟨0, 0, 0⟩ := by
  unfold morelandSrgb
  rw [O4_entry0]
  norm_num [msh_to_lab, lab_to_xyz, lab_invf, xyz_to_rgb, rgb_to_srgb,
    rgb_to_srgb_helper, d65_xyz, O4, triplet.l, triplet.a, triplet.b, triplet.r,
    triplet.g, triplet.m, triplet.s, triplet.h, triplet.mk.injEq]

/-- C4 counterexample: Moreland samples cell-centered at t = (i+0.5)/n,
so with n = 3 the entries sit at 1/6, 1/2, 5/6, never at the endpoints 0
and 1.  For the endpoint bytes (180,4,38) and (59,76,192) the white
midpoint is placed (place_white holds), so entry 0 is a strict mix of
two thirds of endpoint 0 with one third of the white point: its MSH
saturation is 2/3 while the endpoint has saturation 1, and at the
concrete oracle O4 the first byte written is 0, not 180. -/
theorem C4_counterexample :
    cell_t 3 0 = 1 / 6
    ∧ cell_t 3 2 = 5 / 6
    ∧ morelandPlaceWhite O4 (morelandOmsh O4 180 4 38) (morelandOmsh O4 59 76 192)
    ∧ (morelandOmsh O4 180 4 38).s = 1
    ∧ (morelandMsh O4 180 4 38 59 76 192 3 0).s = 2 / 3
    ∧ (Moreland O4 3 0 (fun _ => 0) 180 4 38 59 76 192).1 0 = 0
    ∧ (0 : ℕ) ≠ 180 := by
  refine ⟨by norm_num [cell_t], by norm_num [cell_t], O4_place_white, ?_, ?_, ?_,
    by norm_num⟩
  · rw [O4_omsh0]; rfl
  · rw [O4_entry0]; rfl
  · unfold Moreland
    rw [runDriver_in _ 3 0 _ 0 (le_refl 0) (by norm_num)]
    unfold entryByte byteSel
    norm_num
    rw [O4_srgb0]
    unfold srgb_quantize float_to_uchar cround
    norm_num [triplet.r, triplet.g, triplet.b]

/-- The white midpoint MSH color used by Moreland when place_white
holds: achromatic with radius unsaturated_m, and the hue spun from the
neighbouring saturated endpoint (colormap.cpp lines 1137-1148). -/
def morelandWhiteMsh (O : MathOracle) (omsh : triplet) (unsaturated_m : ℚ) : triplet :=
  ⟨unsaturated_m, 0, adjust_hue O omsh unsaturated_m⟩

/-- C4 (amended): with n = 3 and endpoints for which place_white holds
(as it does for (180,4,38) and (59,76,192)), entry 0 is the MSH mix of
2/3 of endpoint 0 with 1/3 of the white midpoint, and entry 2 is the
mix of 1/3 of the white midpoint with 2/3 of endpoint 1: the sampling is
cell-centered at t = 1/6 and 5/6, so the entries do not reproduce the
endpoint colors themselves. -/
theorem C4_moreland_cell_centered (O : MathOracle) (sr0 sg0 sb0 sr1 sg1 sb1 : ℕ)
    (hpw : morelandPlaceWhite O (morelandOmsh O sr0 sg0 sb0) (morelandOmsh O sr1 sg1 sb1)) :
    morelandMsh O sr0 sg0 sb0 sr1 sg1 sb1 3 0
      = (2 / 3 : ℚ) * morelandOmsh O sr0 sg0 sb0
        + (1 / 3 : ℚ) * morelandWhiteMsh O (morelandOmsh O sr0 sg0 sb0)
            (max (max (morelandOmsh O sr0 sg0 sb0).m (morelandOmsh O sr1 sg1 sb1).m) 88)
    ∧ morelandMsh O sr0 sg0 sb0 sr1 sg1 sb1 3 2
      = (1 / 3 : ℚ) * morelandWhiteMsh O (morelandOmsh O sr1 sg1 sb1)
            (max (max (morelandOmsh O sr0 sg0 sb0).m (morelandOmsh O sr1 sg1 sb1).m) 88)
        + (2 / 3 : ℚ) * morelandOmsh O sr1 sg1 sb1 := by
  unfold morelandMsh morelandMshAt morelandWhiteMsh
  dsimp only
  obtain ⟨A, hA⟩ : ∃ A, morelandOmsh O sr0 sg0 sb0 = A := ⟨_, rfl⟩
  obtain ⟨B, hB⟩ : ∃ B, morelandOmsh O sr1 sg1 sb1 = B := ⟨_, rfl⟩
  rw [hA, hB] at hpw ⊢
  obtain ⟨aM, aS, aH⟩ := A
  obtain ⟨bM, bS, bH⟩ := B
  obtain ⟨hs0, hs1, hd⟩ := hpw
  dsimp only [triplet.s, triplet.m, triplet.h] at hs0 hs1 hd ⊢
  have c1 : morelandPlaceWhite O ⟨aM, aS, aH⟩ ⟨bM, bS, bH⟩ := ⟨hs0, hs1, hd⟩
  simp only [eq_true c1, if_true]
  constructor
  · rw [if_pos (show cell_t 3 0 < 0.5 by norm_num [cell_t])]
    dsimp only [triplet.s, triplet.m, triplet.h]
    rw [if_neg (fun h => absurd h.2 (by norm_num)), if_pos ⟨hs0, by norm_num⟩]
    refine triplet.eq_of_components _ _ ?_ ?_ ?_ <;> simp <;> norm_num [cell_t]
  · rw [if_neg (show ¬(cell_t 3 2 < 0.5) by norm_num [cell_t])]
    dsimp only [triplet.s, triplet.m, triplet.h]
    rw [if_pos ⟨by norm_num, hs1⟩, if_neg (fun h => absurd h.1 (by norm_num))]
    refine triplet.eq_of_components _ _ ?_ ?_ ?_ <;> simp <;> norm_num [cell_t]

/-- C4 witness: the amended theorem applies at the oracle O4 with the
claim's endpoint bytes (180,4,38) and (59,76,192), for which the
place_white hypothesis holds. -/
theorem C4_witness :
    morelandPlaceWhite O4 (morelandOmsh O4 180 4 38) (morelandOmsh O4 59 76 192)
    ∧ (morelandMsh O4 180 4 38 59 76 192 3 0
        = (2 / 3 : ℚ) * morelandOmsh O4 180 4 38
          + (1 / 3 : ℚ) * morelandWhiteMsh O4 (morelandOmsh O4 180 4 38)
              (max (max (morelandOmsh O4 180 4 38).m (morelandOmsh O4 59 76 192).m) 88)
      ∧ morelandMsh O4 180 4 38 59 76 192 3 2
        = (1 / 3 : ℚ) * morelandWhiteMsh O4 (morelandOmsh O4 59 76 192)
              (max (max (morelandOmsh O4 180 4 38).m (morelandOmsh O4 59 76 192).m) 88)
          + (2 / 3 : ℚ) * morelandOmsh O4 59 76 192) :=
  ⟨O4_place_white, C4_moreland_cell_centered O4 180 4 38 59 76 192 O4_place_white⟩

end ColorMap
